import Mathlib

/-!
A verification development for the MCPHub routing and management core.

The definitions below are a shallow embedding of the TypeScript sources:

* `MCPHub.VectorSearch` models `VectorSearchService.performSearch` /
  `searchToolsByVector` (architecture-docs/05-service-layer.md lines 277-291,
  architecture-docs/README.md lines 351-374, architecture-docs/04-data-flow.md
  lines 461-472): the SQL query
  `SELECT ..., 1 - (embedding <=> $1::vector) as similarity FROM vector_embeddings
   WHERE 1 - (embedding <=> $1::vector) > $2 ORDER BY similarity DESC LIMIT $3`.
* `MCPHub.Embeddings` models `EmbeddingManager.syncEmbeddings`
  (architecture-docs/README.md lines 306-331).
* `MCPHub.MultiTenant` models `MultiTenantService.filterByOwnership`.
* `MCPHub.Hub` models `HubManagementVirtualServer`
  (src/services/virtualServers/hubManagementServer.ts).

JavaScript value semantics (optional fields, string/boolean truthiness,
`||` defaulting) are made explicit through `Option` types and the helper
functions in `MCPHub.JS`.
-/

namespace MCPHub

namespace JS

/-- JS truthiness of an optional string value: `undefined` and `""` are falsy. -/
def strTruthy : Option String → Bool
  | none => false
  | some s => !(s == "")

/-- JS `a || b` where `a` is an optional string and `b` a string default
(`undefined` and `""` both fall through to the default). -/
def orD (a : Option String) (b : String) : String :=
  match a with
  | some s => if s == "" then b else s
  | none => b

/-- JS `a || b` where both sides are optional strings
(used for `toolConfig?.description || tool.description`). -/
def orOpt (a b : Option String) : Option String :=
  match a with
  | some s => if s == "" then b else s
  | none => b

/-- JS truthiness of an optional boolean: only `true` is truthy. -/
def boolTruthy : Option Bool → Bool
  | some true => true
  | _ => false

/-- JS `x !== false` on an optional boolean (absent counts as `true`). -/
def neFalse : Option Bool → Bool
  | some false => false
  | _ => true

/-- JS `if (v !== undefined) target = v` merging: a present value overrides. -/
def optOverride (new? old : Option α) : Option α :=
  match new? with
  | some v => some v
  | none => old

/-- Whether `pre` is a prefix of `l` (helper for substring search). -/
def listStartsWith [DecidableEq α] : List α → List α → Bool
  | [], _ => true
  | _ :: _, [] => false
  | a :: as, b :: bs => a = b && listStartsWith as bs

/-- Whether `pat` occurs as a contiguous subsequence of `l`
(models JS `String.prototype.includes` on the character list). -/
def listContainsSeq [DecidableEq α] (pat : List α) : List α → Bool
  | [] => listStartsWith pat []
  | b :: bs => listStartsWith pat (b :: bs) || listContainsSeq pat bs

/-- JS `hay.includes(pat)` on strings. -/
def strIncludes (hay pat : String) : Bool :=
  listContainsSeq pat.data hay.data

/-- JS `s.toLowerCase()` (character-wise lowering; the configuration keys the
code applies it to are ASCII). `String.toLower` itself is not used because its
byte-position recursion does not reduce in the kernel. -/
def lowerStr (s : String) : String :=
  ⟨s.data.map Char.toLower⟩

end JS

namespace VectorSearch

/-- One row of the `vector_embeddings` table. -/
structure VRow where
  toolName : String
  serverName : String
  description : String
  embedding : List ℚ
deriving Repr, DecidableEq

/-- One row of the SQL result set: the selected columns together with the
computed `similarity` column. -/
structure RawResult where
  toolName : String
  serverName : String
  description : String
  similarity : ℚ
deriving Repr, DecidableEq

/-- The `SELECT` list: carry the stored columns and compute
`1 - (embedding <=> $1::vector)` where `<=>` is the cosine-distance operator,
abstracted as the parameter `dist` (pgvector computes it externally, in
floating point; the model works with exact rationals). -/
def selectRow (dist : List ℚ → List ℚ → ℚ) (queryVector : List ℚ) (r : VRow) :
    RawResult :=
  { toolName := r.toolName
    serverName := r.serverName
    description := r.description
    similarity := 1 - dist r.embedding queryVector }

/-- `ORDER BY similarity DESC` comparison. -/
def simDesc (a b : RawResult) : Prop := b.similarity ≤ a.similarity

instance : DecidableRel simDesc := fun a b => inferInstanceAs (Decidable (_ ≤ _))

/-- The search query of `VectorSearchService.performSearch`:

    SELECT tool_name, server_name, description,
           1 - (embedding <=> $1::vector) as similarity
    FROM vector_embeddings
    WHERE 1 - (embedding <=> $1::vector) > $2
    ORDER BY similarity DESC
    LIMIT $3

`rows` is the table content in storage (scan) order.  `ORDER BY` is modelled
as a stable sort on the scan order; SQL guarantees nothing about the relative
order of rows with equal `similarity`, and the query supplies no further sort
key. -/
def performSearch (dist : List ℚ → List ℚ → ℚ) (rows : List VRow)
    (queryVector : List ℚ) (threshold : ℚ) (lim : ℕ) : List RawResult :=
  let selected := rows.map (selectRow dist queryVector)
  let filtered := selected.filter (fun r => threshold < r.similarity)
  (filtered.insertionSort simDesc).take lim

/-- Dot product of two rational vectors (zero-padded to equal length). -/
def dotList : List ℚ → List ℚ → ℚ
  | a :: as, b :: bs => a * b + dotList as bs
  | _, _ => 0

/-- Cosine distance specialised to unit-norm vectors, where it coincides with
`1 - dot`.  Used to build concrete instances of the abstract `<=>` operator. -/
def cosDistUnit (a b : List ℚ) : ℚ :=
  1 - dotList a b

/-- Concrete rows used to evaluate `performSearch` at specific inputs. -/
def rowExact : VRow := ⟨"t", "S", "d", [1, 0]⟩

def rowHigh : VRow := ⟨"t", "S", "d", [2, 0]⟩

def rowTieB : VRow := ⟨"t", "B", "d", [1, 0]⟩

def rowTieA : VRow := ⟨"t", "A", "d", [1, 0]⟩

end VectorSearch

namespace Embeddings

/-- A tool as reported by an upstream, reduced to the embedding key and text
(`text` is the concatenation of name, description and formatted schema). -/
structure ToolText where
  name : String
  text : String
deriving Repr, DecidableEq

/-- A stored row of the embedding table for one server: tool name, the text
that was embedded, and the stored vector (opaque to the manager, so modelled
as an abstract value produced by the external Embedder). -/
structure StoredEmb where
  name : String
  text : String
  vec : ℤ
deriving Repr, DecidableEq

/-- First stored row for a given tool name. -/
def findStored (stored : List StoredEmb) (n : String) : Option StoredEmb :=
  stored.find? (fun s => s.name == n)

/-- Modelled from the spec: `EmbeddingManager.detectChanges` is called by
`syncEmbeddings` (architecture-docs/README.md lines 306-331) but its body is
not among the sources.  The Vector Index spec prescribes that only rows whose
`text` differs from the stored `text` get a fresh embedding, new keys are
added and vanished keys deleted.  `added` = reported tools with no stored
row. -/
def detectAdded (tools : List ToolText) (stored : List StoredEmb) : List ToolText :=
  tools.filter (fun t => (findStored stored t.name).isNone)

/-- Modelled from the spec (see `detectAdded`): `updated` = reported tools
whose stored row exists with a different text. -/
def detectUpdated (tools : List ToolText) (stored : List StoredEmb) : List ToolText :=
  tools.filter (fun t =>
    match findStored stored t.name with
    | some s => !(s.text == t.text)
    | none => false)

/-- Modelled from the spec (see `detectAdded`): `removed` = stored names that
are no longer reported. -/
def detectRemoved (tools : List ToolText) (stored : List StoredEmb) : List String :=
  (stored.filter (fun s => tools.all (fun t => !(t.name == s.name)))).map (·.name)

/-- Modelled from the spec (see `detectAdded`): `removeEmbeddings` deletes
the removed rows. -/
def applyRemove (tools : List ToolText) (stored : List StoredEmb) : List StoredEmb :=
  stored.filter (fun s => !((detectRemoved tools stored).contains s.name))

/-- Modelled from the spec (see `detectAdded`): `updateEmbeddings` re-embeds
each updated row and writes it back; unchanged rows are left untouched. -/
def applyUpdate (embed : String → ℤ) (tools : List ToolText)
    (stored : List StoredEmb) : List StoredEmb :=
  (applyRemove tools stored).map (fun s =>
    match (detectUpdated tools stored).find? (fun t => t.name == s.name) with
    | some t => { s with text := t.text, vec := embed t.text }
    | none => s)

/-- Modelled from the spec (see `detectAdded`): the stored rows after one
`syncEmbeddings` pass — removals, then updates, then `addEmbeddings`
appending a freshly embedded row per added tool. -/
def syncStored (embed : String → ℤ) (stored : List StoredEmb)
    (tools : List ToolText) : List StoredEmb :=
  applyUpdate embed tools stored
    ++ (detectAdded tools stored).map (fun t => ⟨t.name, t.text, embed t.text⟩)

/-- Modelled from the spec: one `syncEmbeddings` pass over a single server.
`embed` is the external Embedder.  Returns the new stored rows and the number
of Embedder calls (one per added or updated row). -/
def syncServer (embed : String → ℤ) (stored : List StoredEmb)
    (tools : List ToolText) : List StoredEmb × ℕ :=
  (syncStored embed stored tools,
   (detectAdded tools stored).length + (detectUpdated tools stored).length)

/-- Concrete inputs for evaluating `syncServer`. -/
def embedLen : String → ℤ := fun s => (s.length : ℤ)

def storedW : List StoredEmb := [⟨"a", "x", 5⟩]

def toolsW : List ToolText := [⟨"a", "x"⟩, ⟨"b", "yy"⟩]

end Embeddings

namespace MultiTenant

/-- An ownable item (`T extends { owner?: string }` in
`MultiTenantService.filterByOwnership`); `id` stands for the rest of the
payload. -/
structure Ownable where
  id : String
  owner : Option String := none
deriving Repr, DecidableEq

/-- The principal (`User`) as consumed by `filterByOwnership`. -/
structure User where
  username : String
  isAdmin : Bool
deriving Repr, DecidableEq

/-- `MultiTenantService.filterByOwnership`:

    if (user.isAdmin) { return items; }
    return items.filter(item => !item.owner || item.owner === user.username);

`!item.owner` is JS truthiness: an absent owner and an empty-string owner are
both treated as public. -/
def filterByOwnership (items : List Ownable) (user : User) : List Ownable :=
  if user.isAdmin then items
  else items.filter (fun item =>
    !(JS.strTruthy item.owner) || item.owner == some user.username)

/-- Concrete inputs for `filterByOwnership`. -/
def itemEmptyOwner : Ownable := ⟨"g1", some ""⟩

def alice : User := ⟨"alice", false⟩

def itemsW : List Ownable :=
  [⟨"pub", none⟩, ⟨"mine", some "alice"⟩, ⟨"other", some "bob"⟩]

end MultiTenant

namespace Hub

/-- Per-tool overlay stored under `mcpServers[server].tools[toolName]`
(`{ enabled?, description? }`). -/
structure ToolConfig where
  enabled : Option Bool := none
  description : Option String := none
deriving Repr, DecidableEq

/-- One entry of `settings.mcpServers`.  Optional fields model absent JS
properties; the `tools` object is an association list in insertion order. -/
structure ServerConfig where
  command : Option String := none
  args : Option (List String) := none
  env : Option (List (String × String)) := none
  type : Option String := none
  url : Option String := none
  enabled : Option Bool := none
  tools : Option (List (String × ToolConfig)) := none
deriving Repr, DecidableEq

/-- `settings.smartRouting`. -/
structure SmartRoutingCfg where
  enabled : Option Bool := none
  openaiApiKey : Option String := none
  embeddingModel : Option String := none
deriving Repr, DecidableEq

/-- `settings.systemConfig.routing`. -/
structure RoutingCfg where
  enabled : Option Bool := none
  defaultGroup : Option String := none
deriving Repr, DecidableEq

/-- `settings.systemConfig` (`install` is opaque to the management server and
modelled as an uninterpreted optional value). -/
structure SystemCfg where
  routing : Option RoutingCfg := none
  install : Option String := none
deriving Repr, DecidableEq

/-- A group as stored in settings (opaque to the management server except for
import/export, which pass it through). -/
structure GroupCfg where
  id : String
  name : String
  description : Option String := none
  servers : List (String × Option (List String)) := []
  owner : Option String := none
deriving Repr, DecidableEq

/-- The settings value owned by the Settings Store, restricted to the fields
`HubManagementVirtualServer` reads or writes. -/
structure Settings where
  mcpServers : Option (List (String × ServerConfig)) := none
  smartRouting : Option SmartRoutingCfg := none
  systemConfig : Option SystemCfg := none
  groups : Option (List GroupCfg) := none
deriving Repr, DecidableEq

/-- A tool descriptor reported by an upstream client (`listTools`). -/
structure UpTool where
  name : String
  description : Option String := none
deriving Repr, DecidableEq

/-- An upstream client as observed through `mcpService.getClient`:
`getServerCapabilities()` (undefined while disconnected, an opaque value when
connected) and the outcome of `listTools()` (which may reject, and whose
`tools` property may be absent). -/
structure Client where
  capabilities : Option String := none
  listToolsResult : Except String (Option (List UpTool)) := .ok (some [])
deriving Repr

/-- One entry of `logService.getLogs()`; `timestamp` is epoch milliseconds. -/
structure LogEntry where
  level : String
  message : String
  timestamp : ℤ
  metaServer : Option String := none
deriving Repr, DecidableEq

/-- A group as returned by `groupService`. -/
structure GroupVal where
  id : String
  name : String
  description : Option String := none
  servers : Option (List String) := none
deriving Repr, DecidableEq

/-- The external collaborators of `executeTool`, with the outcome of each
awaited effect: the settings load, the settings save, client reinitialization,
`mcpService.getClient`, the `groupService` operations, the optional vector
service, the log service, date parsing, and the process statistics. -/
structure Env where
  loadSettingsResult : Except String Settings := .ok {}
  saveErr : Option String := none
  reinitErr : Option String := none
  getClient : String → Option Client := fun _ => none
  groups : List GroupVal := []
  createGroupResult : Except String GroupVal := .error "createGroup failed"
  updateGroupResult : Except String GroupVal := .error "updateGroup failed"
  deleteGroupResult : Except String Unit := .error "deleteGroup failed"
  vectorService : Option (Except String Unit) := none
  logs : List LogEntry := []
  parseTime : String → ℤ := fun _ => 0
  heapUsedBytes : ℚ := 0
  heapTotalBytes : ℚ := 0
  uptimeSeconds : ℚ := 0

/-- The argument object passed to `executeTool`; every property is optional
on the wire. -/
structure Args where
  name : Option String := none
  command : Option String := none
  args : Option (List String) := none
  env : Option (List (String × String)) := none
  type : Option String := none
  url : Option String := none
  enabled : Option Bool := none
  includeDisabled : Option Bool := none
  includeServerDetails : Option Bool := none
  server : Option String := none
  toolName : Option String := none
  level : Option String := none
  limit : Option ℤ := none
  since : Option String := none
  delay : Option ℚ := none
  includeSecrets : Option Bool := none
  config : Option Settings := none
  validate : Option Bool := none
  merge : Option Bool := none
  description : Option String := none
  id : Option String := none
  servers : Option (List (String × Option (List String))) := none
  routing : Option RoutingCfg := none
  smartRouting : Option SmartRoutingCfg := none
deriving Repr

/-- Row shape returned by `list_servers`. -/
structure ServerRow where
  name : String
  enabled : Bool
  connected : Bool
  type : String
  command : Option String
  url : Option String
  toolCount : ℕ
deriving Repr, DecidableEq

/-- Row shape returned by `list_all_tools`. -/
structure ToolRow where
  server : String
  name : String
  description : Option String
  enabled : Bool
  customDescription : Bool
deriving Repr, DecidableEq

/-- Row shape returned by `get_connection_status`. -/
structure StatusRow where
  name : String
  enabled : Bool
  connected : Bool
  type : String
  toolCount : ℕ
  lastError : Option String
deriving Repr, DecidableEq

/-- Row shape returned by `list_groups` without `includeServerDetails`. -/
structure GroupSummary where
  id : String
  name : String
  description : Option String
  serverCount : ℕ
deriving Repr, DecidableEq

/-- The JS value successfully returned by `executeTool`, one constructor per
result shape. -/
inductive ExecVal where
  | serverList (rows : List ServerRow)
  | opMsg (success : Bool) (message : String)
  | opMsgGroup (success : Bool) (message : String) (group : GroupVal)
  | testOk (message : String) (capabilities : Option String) (toolCount : ℕ)
  | testFail (message : String) (error : Option String)
  | groupSummaries (gs : List GroupSummary)
  | groupsFull (gs : List GroupVal)
  | systemConfig (routing : RoutingCfg) (smartRouting : SmartRoutingCfg)
      (install : Option String)
  | health (status : String) (healthScore : ℤ) (total connected disconnected : ℕ)
      (memUsedMB memTotalMB : ℤ) (uptimeSecs : ℤ) (uptimeFormatted : String)
  | toolList (rows : List ToolRow)
  | logList (entries : List LogEntry)
  | statusList (rows : List StatusRow)
  | settingsVal (s : Settings)
deriving Repr, DecidableEq

/-- The side effects `executeTool` performs on the hub: the values passed to
`saveSettings` (in call order), the number of synchronous
`initializeClientsFromSettings` calls, and the number of restarts scheduled
through `setTimeout` (`restart_hub`). -/
structure Effects where
  saves : List Settings := []
  reinits : ℕ := 0
  scheduledReinits : ℕ := 0
deriving Repr, DecidableEq

/-- Result of one `executeTool` invocation: the returned value or the thrown
error, together with the performed side effects. -/
structure Outcome where
  result : Except String ExecVal
  effects : Effects
deriving Repr

/-- Effect-free successful outcome. -/
def pureOut (v : ExecVal) : Outcome := ⟨.ok v, {}⟩

/-- Effect-free thrown error (caught later by `callTool`). -/
def errOut (e : String) : Outcome := ⟨.error e, {}⟩

/-- `await loadSettings()`: propagate a load failure, else continue. -/
def withSettings (env : Env) (k : Settings → Outcome) : Outcome :=
  match env.loadSettingsResult with
  | .error e => errOut e
  | .ok s => k s

/-- `await saveSettings(s)`: the save call is recorded; a rejection
propagates and skips the continuation. -/
def saveThen (env : Env) (s : Settings) (k : Unit → Outcome) : Outcome :=
  match env.saveErr with
  | some e => ⟨.error e, { saves := [s] }⟩
  | none =>
    let o := k ()
    ⟨o.result, { o.effects with saves := s :: o.effects.saves }⟩

/-- `await mcpService.initializeClientsFromSettings(false)`: the call is
counted; a rejection propagates and skips the continuation. -/
def reinitThen (env : Env) (k : Unit → Outcome) : Outcome :=
  match env.reinitErr with
  | some e => ⟨.error e, { reinits := 1 }⟩
  | none =>
    let o := k ()
    ⟨o.result, { o.effects with reinits := o.effects.reinits + 1 }⟩

/-- `client?.getServerCapabilities() !== undefined`. -/
def clientConnected (env : Env) (n : String) : Bool :=
  match env.getClient n with
  | some c => c.capabilities.isSome
  | none => false

/-- JS property read through an absent key: an absent argument indexes and
interpolates as the string `"undefined"`. -/
def argStr (o : Option String) : String := o.getD "undefined"

/-- `l.map`-based update of the object property `n` (JS
`obj[n] = g(obj[n])` on an association list; other keys untouched). -/
def updAt {β : Type} (l : List (String × β)) (n : String) (g : β → β) :
    List (String × β) :=
  l.map (fun p => if p.1 == n then (p.1, g p.2) else p)

/-- `settings.mcpServers[name] = cfg` for an existing key. -/
def setServer (servers : List (String × ServerConfig)) (n : String)
    (cfg : ServerConfig) : List (String × ServerConfig) :=
  updAt servers n (fun _ => cfg)

/-- The `list_servers` case. -/
def caseListServers (env : Env) (args : Args) : Outcome :=
  withSettings env fun s =>
    let rows := (s.mcpServers.getD []).map (fun p =>
      { name := p.1
        enabled := JS.neFalse p.2.enabled
        connected := clientConnected env p.1
        type := JS.orD p.2.type "stdio"
        command := p.2.command
        url := p.2.url
        toolCount := (p.2.tools.getD []).length : ServerRow })
    if !(JS.boolTruthy args.includeDisabled) then
      pureOut (.serverList (rows.filter (·.enabled)))
    else
      pureOut (.serverList rows)

/-- The `add_server` case. -/
def caseAddServer (env : Env) (args : Args) : Outcome :=
  withSettings env fun s =>
    let argName := argStr args.name
    let servers := s.mcpServers.getD []
    if (servers.lookup argName).isSome then
      errOut ("Server \"" ++ argName ++ "\" already exists")
    else
      let cfgType := JS.orD args.type "stdio"
      let cfgCommand := JS.orD args.command ""
      let serverConfig : ServerConfig :=
        { command := some cfgCommand
          args := args.args
          env := args.env
          type := some cfgType
          url := args.url
          enabled := some (JS.neFalse args.enabled)
          tools := some [] }
      if cfgType == "stdio" && cfgCommand == "" then
        errOut "Command is required for stdio servers"
      else if (cfgType == "sse" || cfgType == "streamable-http")
          && !(JS.strTruthy serverConfig.url) then
        errOut "URL is required for SSE/HTTP servers"
      else
        saveThen env { s with mcpServers := some (servers ++ [(argName, serverConfig)]) }
          fun _ =>
            reinitThen env fun _ =>
              pureOut (.opMsg true ("Server \"" ++ argName ++ "\" added successfully"))

/-- The `update_server` case. -/
def caseUpdateServer (env : Env) (args : Args) : Outcome :=
  withSettings env fun s =>
    let argName := argStr args.name
    let servers := s.mcpServers.getD []
    match servers.lookup argName with
    | none => errOut ("Server \"" ++ argName ++ "\" not found")
    | some currentConfig =>
      let cfg : ServerConfig :=
        { currentConfig with
          command := JS.optOverride args.command currentConfig.command
          args := JS.optOverride args.args currentConfig.args
          env := JS.optOverride args.env currentConfig.env
          type := JS.optOverride args.type currentConfig.type
          url := JS.optOverride args.url currentConfig.url }
      saveThen env { s with mcpServers := some (setServer servers argName cfg) }
        fun _ =>
          reinitThen env fun _ =>
            pureOut (.opMsg true ("Server \"" ++ argName ++ "\" updated successfully"))

/-- The `delete_server` case. -/
def caseDeleteServer (env : Env) (args : Args) : Outcome :=
  withSettings env fun s =>
    let argName := argStr args.name
    let servers := s.mcpServers.getD []
    if (servers.lookup argName).isNone then
      errOut ("Server \"" ++ argName ++ "\" not found")
    else
      saveThen env
          { s with mcpServers := some (servers.filter (fun p => !(p.1 == argName))) }
        fun _ =>
          reinitThen env fun _ =>
            pureOut (.opMsg true ("Server \"" ++ argName ++ "\" deleted successfully"))

/-- The `toggle_server` case. -/
def caseToggleServer (env : Env) (args : Args) : Outcome :=
  withSettings env fun s =>
    let argName := argStr args.name
    let servers := s.mcpServers.getD []
    match servers.lookup argName with
    | none => errOut ("Server \"" ++ argName ++ "\" not found")
    | some currentConfig =>
      let cfg := { currentConfig with enabled := args.enabled }
      saveThen env { s with mcpServers := some (setServer servers argName cfg) }
        fun _ =>
          reinitThen env fun _ =>
            pureOut (.opMsg true ("Server \"" ++ argName ++ "\" "
              ++ (if JS.boolTruthy args.enabled then "enabled" else "disabled")
              ++ " successfully"))

/-- The `test_server` case. -/
def caseTestServer (env : Env) (args : Args) : Outcome :=
  let argName := argStr args.name
  match env.getClient argName with
  | none =>
    pureOut (.testFail ("Server \"" ++ argName ++ "\" not found or not initialized") none)
  | some client =>
    match client.listToolsResult with
    | .ok toolsOpt =>
      pureOut (.testOk ("Server \"" ++ argName ++ "\" is connected")
        client.capabilities (toolsOpt.getD []).length)
    | .error e =>
      pureOut (.testFail ("Failed to connect to server \"" ++ argName ++ "\"") (some e))

/-- The `list_groups` case. -/
def caseListGroups (env : Env) (args : Args) : Outcome :=
  if !(JS.boolTruthy args.includeServerDetails) then
    pureOut (.groupSummaries (env.groups.map (fun g =>
      ⟨g.id, g.name, g.description, (g.servers.getD []).length⟩)))
  else
    pureOut (.groupsFull env.groups)

/-- The `create_group` case (`groupService.createGroup` may throw). -/
def caseCreateGroup (env : Env) (args : Args) : Outcome :=
  match env.createGroupResult with
  | .ok g =>
    pureOut (.opMsgGroup true ("Group \"" ++ argStr args.name ++ "\" created successfully") g)
  | .error e => errOut e

/-- The `update_group` case. -/
def caseUpdateGroup (env : Env) (_args : Args) : Outcome :=
  match env.updateGroupResult with
  | .ok g => pureOut (.opMsgGroup true "Group updated successfully" g)
  | .error e => errOut e

/-- The `delete_group` case. -/
def caseDeleteGroup (env : Env) (_args : Args) : Outcome :=
  match env.deleteGroupResult with
  | .ok _ => pureOut (.opMsg true "Group deleted successfully")
  | .error e => errOut e

/-- The `get_system_config` case. -/
def caseGetSystemConfig (env : Env) : Outcome :=
  withSettings env fun s =>
    pureOut (.systemConfig ((s.systemConfig.bind (·.routing)).getD {})
      (s.smartRouting.getD {}) (s.systemConfig.bind (·.install)))

/-- The `update_system_config` case. -/
def caseUpdateSystemConfig (env : Env) (args : Args) : Outcome :=
  withSettings env fun s =>
    let s1 := match args.routing with
      | some patch =>
        let sysCfg := s.systemConfig.getD {}
        let routing := sysCfg.routing.getD {}
        let routing2 : RoutingCfg :=
          { enabled := JS.optOverride patch.enabled routing.enabled
            defaultGroup := JS.optOverride patch.defaultGroup routing.defaultGroup }
        { s with systemConfig := some { sysCfg with routing := some routing2 } }
      | none => s
    let s2 := match args.smartRouting with
      | some patch =>
        let sr := s1.smartRouting.getD {}
        let sr2 : SmartRoutingCfg :=
          { enabled := JS.optOverride patch.enabled sr.enabled
            openaiApiKey := JS.optOverride patch.openaiApiKey sr.openaiApiKey
            embeddingModel := JS.optOverride patch.embeddingModel sr.embeddingModel }
        { s1 with smartRouting := some sr2 }
      | none => s1
    saveThen env s2 fun _ =>
      if JS.boolTruthy (args.smartRouting.bind (·.enabled)) then
        match env.vectorService with
        | some (.error e) => errOut e
        | _ => pureOut (.opMsg true "System configuration updated successfully")
      else
        pureOut (.opMsg true "System configuration updated successfully")

/-- `Math.round` (ties round up, matching JS for the values in range). -/
def jsRound (q : ℚ) : ℤ := ⌊q + mkRat 1 2⌋

/-- JS `%` on nonnegative numbers. -/
def qfmod (a b : ℚ) : ℚ := a - b * (⌊a / b⌋ : ℤ)

/-- `formatUptime(seconds)`. -/
def formatUptime (seconds : ℚ) : String :=
  let days : ℤ := ⌊seconds / 86400⌋
  let hours : ℤ := ⌊qfmod seconds 86400 / 3600⌋
  let minutes : ℤ := ⌊qfmod seconds 3600 / 60⌋
  let secs : ℤ := ⌊qfmod seconds 60⌋
  let parts : List String :=
    (if 0 < days then [toString days ++ "d"] else [])
      ++ (if 0 < hours then [toString hours ++ "h"] else [])
      ++ (if 0 < minutes then [toString minutes ++ "m"] else [])
  let parts := if 0 < secs || parts.isEmpty then parts ++ [toString secs ++ "s"] else parts
  String.intercalate " " parts

/-- The `get_system_health` case.  With no enabled servers the JS health score
is `NaN` (0/0) and both threshold comparisons are false; the rational model
yields 0 with the same resulting status. -/
def caseGetSystemHealth (env : Env) : Outcome :=
  withSettings env fun s =>
    let entries := (s.mcpServers.getD []).filter (fun p => JS.boolTruthy p.2.enabled)
    let connectedCount := entries.countP (fun p => clientConnected env p.1)
    let disconnectedCount := entries.length - connectedCount
    let healthScore : ℚ :=
      (connectedCount : ℚ) / ((connectedCount : ℚ) + (disconnectedCount : ℚ)) * 100
    let status := if 80 ≤ healthScore then "healthy"
      else if 50 ≤ healthScore then "degraded" else "unhealthy"
    pureOut (.health status (jsRound healthScore) entries.length connectedCount
      disconnectedCount (jsRound (env.heapUsedBytes / 1024 / 1024))
      (jsRound (env.heapTotalBytes / 1024 / 1024)) (jsRound env.uptimeSeconds)
      (formatUptime env.uptimeSeconds))

/-- The `restart_hub` case (the reinitialization runs later via `setTimeout`
and is recorded as a scheduled restart). -/
def caseRestartHub (_env : Env) (args : Args) : Outcome :=
  let delay := args.delay.getD 0
  ⟨.ok (.opMsg true (if 0 < delay then
      "Hub will restart in " ++ toString delay ++ " seconds"
    else "Hub restart initiated")),
   { scheduledReinits := 1 }⟩

/-- `settings.mcpServers[server].tools[toolName]` lookup. -/
def toolCfgOf (cfg : ServerConfig) (t : String) : Option ToolConfig :=
  (cfg.tools.getD []).lookup t

/-- `toolConfig?.enabled !== false`: the per-tool enabled flag of
`list_all_tools`. -/
def toolEnabledB (cfg : ServerConfig) (t : String) : Bool :=
  JS.neFalse ((toolCfgOf cfg t).bind (·.enabled))

/-- The row `list_all_tools` pushes for one reported tool. -/
def mkToolRow (serverName : String) (cfg : ServerConfig) (tool : UpTool) : ToolRow :=
  { server := serverName
    name := tool.name
    description := JS.orOpt ((toolCfgOf cfg tool.name).bind (·.description)) tool.description
    enabled := toolEnabledB cfg tool.name
    customDescription := JS.strTruthy ((toolCfgOf cfg tool.name).bind (·.description)) }

/-- The rows `list_all_tools` collects from one `mcpServers` entry: the
`continue` guards for the server filter and for disabled servers, the absent
client, a rejected `listTools` (caught and skipped), then one row per
reported tool that is enabled or explicitly requested. -/
def serverToolRows (env : Env) (argServer : Option String) (includeDisabled : Bool)
    (entry : String × ServerConfig) : List ToolRow :=
  if JS.strTruthy argServer && !(argServer == some entry.1) then []
  else if !(JS.boolTruthy entry.2.enabled) && !includeDisabled then []
  else
    match env.getClient entry.1 with
    | none => []
    | some client =>
      match client.listToolsResult with
      | .error _ => []
      | .ok toolsOpt =>
        (toolsOpt.getD []).filterMap (fun tool =>
          if !(toolEnabledB entry.2 tool.name) && !includeDisabled then none
          else some (mkToolRow entry.1 entry.2 tool))

/-- The `list_all_tools` loop over all configured servers. -/
def listAllTools (env : Env) (s : Settings) (argServer : Option String)
    (includeDisabled : Bool) : List ToolRow :=
  (s.mcpServers.getD []).flatMap (serverToolRows env argServer includeDisabled)

/-- The `list_all_tools` case. -/
def caseListAllTools (env : Env) (args : Args) : Outcome :=
  withSettings env fun s =>
    pureOut (.toolList (listAllTools env s args.server (JS.boolTruthy args.includeDisabled)))

/-- The per-tool entry update of `toggle_tool`: ensure the entry exists (a
fresh entry is created as `{ enabled: true }` — its `enabled` is immediately
overwritten by the assignment, so it carries `args.enabled` and no
description), then assign `tools[toolName].enabled = args.enabled`. -/
def toggledTools (tools : List (String × ToolConfig)) (toolName : String)
    (enabled : Option Bool) : List (String × ToolConfig) :=
  match tools.lookup toolName with
  | none => tools ++ [(toolName, { enabled := enabled, description := none })]
  | some _ => updAt tools toolName (fun tc => { tc with enabled := enabled })

/-- The `toggle_tool` case: update the per-tool overlay and save.  No client
reinitialization is performed. -/
def caseToggleTool (env : Env) (args : Args) : Outcome :=
  withSettings env fun s =>
    let argServer := argStr args.server
    let servers := s.mcpServers.getD []
    match servers.lookup argServer with
    | none => errOut ("Server \"" ++ argServer ++ "\" not found")
    | some cfg =>
      let toolName := argStr args.toolName
      let cfg2 := { cfg with
        tools := some (toggledTools (cfg.tools.getD []) toolName args.enabled) }
      saveThen env { s with mcpServers := some (setServer servers argServer cfg2) }
        fun _ =>
          pureOut (.opMsg true ("Tool \"" ++ toolName ++ "\" "
            ++ (if JS.boolTruthy args.enabled then "enabled" else "disabled")
            ++ " successfully"))

/-- JS `l.slice(start)` for a possibly negative `start`. -/
def jsSliceFrom {α : Type} (l : List α) (start : ℤ) : List α :=
  if start < 0 then l.drop (((l.length : ℤ) + start).toNat) else l.drop start.toNat

/-- The `get_logs` case (each filter is applied only when the argument is
truthy; `slice(-limit)` keeps the last `limit` entries). -/
def caseGetLogs (env : Env) (args : Args) : Outcome :=
  let logs := env.logs
  let logs := match args.level with
    | some lvl => if lvl == "" then logs else logs.filter (fun log => log.level == lvl)
    | none => logs
  let logs := match args.server with
    | some srv => if srv == "" then logs else
        logs.filter (fun log => JS.strIncludes log.message srv || log.metaServer == some srv)
    | none => logs
  let logs := match args.since with
    | some since => if since == "" then logs else
        logs.filter (fun log => env.parseTime since ≤ log.timestamp)
    | none => logs
  let logs := match args.limit with
    | some lim => if lim == 0 then logs else jsSliceFrom logs (-lim)
    | none => logs
  pureOut (.logList logs)

/-- The `get_connection_status` case. -/
def caseGetConnectionStatus (env : Env) : Outcome :=
  withSettings env fun s =>
    pureOut (.statusList ((s.mcpServers.getD []).map (fun p =>
      let base : StatusRow :=
        { name := p.1
          enabled := JS.neFalse p.2.enabled
          connected := clientConnected env p.1
          type := JS.orD p.2.type "stdio"
          toolCount := 0
          lastError := none }
      if clientConnected env p.1 then
        match env.getClient p.1 with
        | some client =>
          match client.listToolsResult with
          | .ok toolsOpt => { base with toolCount := (toolsOpt.getD []).length }
          | .error e => { base with lastError := some e }
        | none => base
      else base)))

/-- Whether an environment-variable name contains `key`, `secret` or
`password` case-insensitively. -/
def isSecretKeyName (k : String) : Bool :=
  JS.strIncludes (JS.lowerStr k) "key" || JS.strIncludes (JS.lowerStr k) "secret"
    || JS.strIncludes (JS.lowerStr k) "password"

/-- Redact the secret-named values of one environment object. -/
def redactEnvList (e : List (String × String)) : List (String × String) :=
  e.map (fun kv => if isSecretKeyName kv.1 then (kv.1, "***REDACTED***") else kv)

/-- Redact one `mcpServers` entry (`if (server.env) { ... }`). -/
def redactServerEntry (p : String × ServerConfig) : String × ServerConfig :=
  (p.1, { p.2 with env := match p.2.env with
    | some e => some (redactEnvList e)
    | none => none })

/-- The redaction applied by `export_configuration` without `includeSecrets`:
`smartRouting.openaiApiKey` is replaced only when truthy; every
environment-variable value whose name matches `isSecretKeyName` is replaced
unconditionally. -/
def redactSettings (s : Settings) : Settings :=
  let sr := match s.smartRouting with
    | some sr =>
      some (if JS.strTruthy sr.openaiApiKey then
          { sr with openaiApiKey := some "***REDACTED***" }
        else sr)
    | none => none
  let servers := match s.mcpServers with
    | some l => some (l.map redactServerEntry)
    | none => none
  { s with smartRouting := sr, mcpServers := servers }

/-- The `export_configuration` case. -/
def caseExportConfiguration (env : Env) (args : Args) : Outcome :=
  withSettings env fun s =>
    if JS.boolTruthy args.includeSecrets then pureOut (.settingsVal s)
    else pureOut (.settingsVal (redactSettings s))

/-- The validation loop of `import_configuration` (runs only when
`args.validate` is truthy): the first offending server produces the error.
The type comparison is exact (`===`), so an absent `type` is not validated. -/
def validateImportServers : List (String × ServerConfig) → Option String
  | [] => none
  | (n, sc) :: rest =>
    if sc.type == some "stdio" && !(JS.strTruthy sc.command) then
      some ("Server \"" ++ n ++ "\" requires a command for stdio type")
    else if (sc.type == some "sse" || sc.type == some "streamable-http")
        && !(JS.strTruthy sc.url) then
      some ("Server \"" ++ n ++ "\" requires a URL for " ++ sc.type.getD "" ++ " type")
    else validateImportServers rest

/-- JS object spread `{...a, ...b}` on association lists: keys of `a` in
order with values overridden by `b`, then new keys of `b` appended. -/
def assocMerge (a b : List (String × ServerConfig)) : List (String × ServerConfig) :=
  a.map (fun p => (p.1, (b.lookup p.1).getD p.2))
    ++ b.filter (fun q => (a.lookup q.1).isNone)

/-- `{...currentSettings, ...args.config, mcpServers: {...current, ...config}}`. -/
def mergeSettings (current cfg : Settings) : Settings :=
  { mcpServers := some (assocMerge (current.mcpServers.getD []) (cfg.mcpServers.getD []))
    smartRouting := JS.optOverride cfg.smartRouting current.smartRouting
    systemConfig := JS.optOverride cfg.systemConfig current.systemConfig
    groups := JS.optOverride cfg.groups current.groups }

/-- The save step of `import_configuration` (merge or replace). -/
def importSave (env : Env) (args : Args) (cfg : Settings) : Outcome :=
  if JS.boolTruthy args.merge then
    withSettings env fun current =>
      saveThen env (mergeSettings current cfg) fun _ =>
        pureOut (.opMsg true "Configuration merged successfully")
  else
    saveThen env cfg fun _ =>
      pureOut (.opMsg true "Configuration imported successfully")

/-- The `import_configuration` case.  Validation runs only when
`args.validate` is truthy.  An absent `config` raises a TypeError in JS when
first dereferenced; the exact message is immaterial here. -/
def caseImportConfiguration (env : Env) (args : Args) : Outcome :=
  match args.config with
  | none => errOut "Cannot read properties of undefined"
  | some cfg =>
    if JS.boolTruthy args.validate then
      if cfg.mcpServers == none && cfg.groups == none then
        errOut "Configuration must contain mcpServers or groups"
      else
        match validateImportServers (cfg.mcpServers.getD []) with
        | some e => errOut e
        | none => importSave env args cfg
    else importSave env args cfg

/-- The `switch (name)` dispatch of
`HubManagementVirtualServer.executeTool`. -/
def executeTool (env : Env) (name : String) (args : Args) : Outcome :=
  if name = "list_servers" then caseListServers env args
  else if name = "add_server" then caseAddServer env args
  else if name = "update_server" then caseUpdateServer env args
  else if name = "delete_server" then caseDeleteServer env args
  else if name = "toggle_server" then caseToggleServer env args
  else if name = "test_server" then caseTestServer env args
  else if name = "list_groups" then caseListGroups env args
  else if name = "create_group" then caseCreateGroup env args
  else if name = "update_group" then caseUpdateGroup env args
  else if name = "delete_group" then caseDeleteGroup env args
  else if name = "get_system_config" then caseGetSystemConfig env
  else if name = "update_system_config" then caseUpdateSystemConfig env args
  else if name = "get_system_health" then caseGetSystemHealth env
  else if name = "restart_hub" then caseRestartHub env args
  else if name = "list_all_tools" then caseListAllTools env args
  else if name = "toggle_tool" then caseToggleTool env args
  else if name = "get_logs" then caseGetLogs env args
  else if name = "get_connection_status" then caseGetConnectionStatus env
  else if name = "export_configuration" then caseExportConfiguration env args
  else if name = "import_configuration" then caseImportConfiguration env args
  else errOut ("Unknown tool: " ++ name)

/-- The `case` labels of the `switch`. -/
def knownToolNames : List String :=
  ["list_servers", "add_server", "update_server", "delete_server", "toggle_server",
   "test_server", "list_groups", "create_group", "update_group", "delete_group",
   "get_system_config", "update_system_config", "get_system_health", "restart_hub",
   "list_all_tools", "toggle_tool", "get_logs", "get_connection_status",
   "export_configuration", "import_configuration"]

/-- One MCP content block (`{ type: 'text', text }`). -/
structure ContentBlock where
  type : String
  text : String
deriving Repr, DecidableEq

/-- The value `callTool` resolves with (`{ content: [...] }`). -/
structure CallResult where
  content : List ContentBlock
deriving Repr, DecidableEq

/-- `HubManagementVirtualServer.callTool`: wrap `executeTool` in
`try`/`catch`; a successful value is serialized (`JSON.stringify`, abstracted
as the `stringify` parameter since no branch returns a plain string), a
thrown error becomes a text block prefixed with `Error: `. -/
def callTool (stringify : ExecVal → String) (env : Env) (name : String)
    (args : Args) : CallResult :=
  match (executeTool env name args).result with
  | .ok v => ⟨[⟨"text", stringify v⟩]⟩
  | .error e => ⟨[⟨"text", "Error: " ++ e⟩]⟩

/-! Concrete inputs used to evaluate the operations at specific points. -/

/-- A serializer instance (the serialized text is irrelevant to the claims). -/
def stringifyNone : ExecVal → String := fun _ => ""

def envBare : Env := {}

def argsNone : Args := {}

/-- A per-tool overlay whose description override is the empty string. -/
def toolCfgEmptyOverride : ToolConfig := { description := some "" }

def cfgA : ServerConfig :=
  { enabled := some true
    tools := some [("t", toolCfgEmptyOverride), ("off", { enabled := some false })] }

def settingsA : Settings := { mcpServers := some [("a", cfgA)] }

def clientA : Client :=
  { capabilities := some "caps"
    listToolsResult := .ok (some
      [{ name := "t", description := some "upstream desc" },
       { name := "off", description := some "d2" },
       { name := "u" }]) }

def envA : Env :=
  { loadSettingsResult := .ok settingsA
    getClient := fun n => if n == "a" then some clientA else none }

/-- A stdio server entry with no `command`. -/
def stdioNoCmd : ServerConfig := { type := some "stdio" }

def badImportCfg : Settings := { mcpServers := some [("s", stdioNoCmd)] }

def argsImportPlain : Args := { config := some badImportCfg }

def argsImportValidate : Args := { config := some badImportCfg, validate := some true }

def argsAddNoCmd : Args := { name := some "n" }

def cfgT : ServerConfig :=
  { command := some "run"
    type := some "stdio"
    enabled := some true
    tools := some [("x", { enabled := some true, description := some "od" })] }

def settingsT : Settings :=
  { mcpServers := some [("a", cfgT)]
    smartRouting := some { openaiApiKey := some "sk" } }

def envT : Env := { loadSettingsResult := .ok settingsT }

def argsToggleX : Args := { server := some "a", toolName := some "x", enabled := some false }

def argsUpdateA : Args := { name := some "a", url := some "http-alt" }

def secretEnvW : List (String × String) :=
  [("API_KEY", "abc"), ("MY_PASSWORD", "pw"), ("PLAIN", "v")]

def settingsSec1 : Settings :=
  { mcpServers := some [("a", { env := some secretEnvW })]
    smartRouting := some { openaiApiKey := some "" } }

def settingsSec2 : Settings :=
  { mcpServers := some [("a", { env := some secretEnvW })]
    smartRouting := some { openaiApiKey := some "sk-123" } }

def envSec1 : Env := { loadSettingsResult := .ok settingsSec1 }

def envSec2 : Env := { loadSettingsResult := .ok settingsSec2 }

/-- Replace the stored OpenAI key (used to state that the export does not
depend on its value). -/
def setApiKey (s : Settings) (k : String) : Settings :=
  { s with smartRouting := some { s.smartRouting.getD {} with openaiApiKey := some k } }

/-- Rewrite the secret-named environment values of one entry through `f`
(used to state that the export does not depend on those values). -/
def mapSecretEntry (f : String → String → String) (p : String × ServerConfig) :
    String × ServerConfig :=
  (p.1, { p.2 with env := p.2.env.map (fun e => e.map (fun kv =>
    if isSecretKeyName kv.1 then (kv.1, f kv.1 kv.2) else kv)) })

/-- Rewrite every secret-named environment-variable value through `f` (used
to state that the export does not depend on those values). -/
def mapSecretEnvValues (s : Settings) (f : String → String → String) : Settings :=
  { s with mcpServers := s.mcpServers.map (fun l => l.map (mapSecretEntry f)) }

/-! Specification shapes with heavy conclusions, as `Prop`-valued
definitions so they can be instantiated at concrete inputs. -/

/-- `add_server` / `import_configuration` failed without observable effect:
an error is thrown, nothing is saved, no client is reinitialized. -/
def RejectedAtomically (o : Outcome) : Prop :=
  (∃ e, o.result = .error e) ∧ o.effects.saves = [] ∧ o.effects.reinits = 0

/-- What `toggle_tool` does to the settings: no reinitialization, exactly one
save whose value differs from `s` only at
`mcpServers[srv].tools[toolName].enabled`. -/
def ToggleToolFrame (env : Env) (args : Args) (s : Settings) (srv : String)
    (cfg : ServerConfig) : Prop :=
  let o := executeTool env "toggle_tool" args
  let toolName := argStr args.toolName
  o.effects.reinits = 0 ∧ o.effects.scheduledReinits = 0 ∧
  ∃ s2, o.effects.saves = [s2] ∧
    s2.smartRouting = s.smartRouting ∧
    s2.systemConfig = s.systemConfig ∧
    s2.groups = s.groups ∧
    (∀ n, n ≠ srv → (s2.mcpServers.getD []).lookup n = (s.mcpServers.getD []).lookup n) ∧
    ∃ cfg2, (s2.mcpServers.getD []).lookup srv = some cfg2 ∧
      cfg2.command = cfg.command ∧ cfg2.args = cfg.args ∧ cfg2.env = cfg.env ∧
      cfg2.type = cfg.type ∧ cfg2.url = cfg.url ∧ cfg2.enabled = cfg.enabled ∧
      (∀ t, t ≠ toolName →
        (cfg2.tools.getD []).lookup t = (cfg.tools.getD []).lookup t) ∧
      ∃ tc, (cfg2.tools.getD []).lookup toolName = some tc ∧
        tc.enabled = args.enabled ∧
        tc.description = ((cfg.tools.getD []).lookup toolName).bind (·.description)

end Hub

/-! ## Theorems -/

unseal Rat.mul Rat.add Rat.sub Rat.inv

/-- In a list that is pairwise ordered so that any element satisfying `p`
forces every earlier element to satisfy `p`, an element satisfying `p` sits
among the first `k` entries whenever at most `k` entries satisfy `p`. -/
theorem mem_take_of_pairwise_countP {α : Type} {p : α → Bool} :
    ∀ {l : List α} {k : ℕ}, l.Pairwise (fun x y => p y = true → p x = true) →
      ∀ {a : α}, a ∈ l → p a = true → l.countP p ≤ k → a ∈ l.take k := by
  intro l
  induction l with
  | nil => intro k _ a ha; exact absurd ha (List.not_mem_nil a)
  | cons x xs ih =>
    intro k hpw a ha hpa hcount
    match k with
    | 0 =>
      exfalso
      have hpos : 0 < (x :: xs).countP p := List.countP_pos_iff.mpr ⟨a, ha, hpa⟩
      omega
    | k + 1 =>
      rw [List.take_succ_cons]
      rcases List.mem_cons.mp ha with rfl | ha2
      · exact List.mem_cons_self a _
      · have hpx : p x = true := (List.pairwise_cons.mp hpw).1 a ha2 hpa
        have hxs : xs.countP p ≤ k := by
          rw [List.countP_cons, if_pos hpx] at hcount
          omega
        exact List.mem_cons_of_mem x (ih (List.pairwise_cons.mp hpw).2 ha2 hpa hxs)

namespace VectorSearch

/-- C1 (amended): the `WHERE` clause of the vector search keeps a row only
when its similarity is strictly greater than the threshold.  First part: a
stored row is in the result whenever its similarity exceeds the threshold and
at most `lim` stored rows (itself included) have similarity at least as
large.  Second part: with `threshold = 1.0` every returned row has
similarity strictly above 1, so rows whose cosine similarity is exactly 1
(exact matches) are not returned. -/
theorem top_rank_strict_threshold :
    (∀ (dist : List ℚ → List ℚ → ℚ) (rows : List VRow) (q : List ℚ)
        (threshold : ℚ) (lim : ℕ) (r : VRow),
      r ∈ rows →
      threshold < 1 - dist r.embedding q →
      rows.countP (fun x => 1 - dist r.embedding q ≤ 1 - dist x.embedding q) ≤ lim →
      selectRow dist q r ∈ performSearch dist rows q threshold lim) ∧
    (∀ (dist : List ℚ → List ℚ → ℚ) (rows : List VRow) (q : List ℚ)
        (lim : ℕ) (res : RawResult),
      res ∈ performSearch dist rows q 1 lim → 1 < res.similarity) := by
  constructor
  · intro dist rows q threshold lim r hmem hthr hrank
    have hTotal : IsTotal RawResult simDesc := ⟨fun a b => le_total b.similarity a.similarity⟩
    have hTrans : IsTrans RawResult simDesc := ⟨fun a b c h1 h2 => le_trans h2 h1⟩
    show selectRow dist q r ∈
      (((rows.map (selectRow dist q)).filter
          (fun x => decide (threshold < x.similarity))).insertionSort simDesc).take lim
    have hmemF : selectRow dist q r ∈
        (rows.map (selectRow dist q)).filter (fun x => decide (threshold < x.similarity)) :=
      List.mem_filter.mpr ⟨List.mem_map_of_mem _ hmem, by
        simpa [selectRow] using hthr⟩
    have hmemS : selectRow dist q r ∈
        ((rows.map (selectRow dist q)).filter
          (fun x => decide (threshold < x.similarity))).insertionSort simDesc :=
      (List.mem_insertionSort _).mpr hmemF
    have hpw : (((rows.map (selectRow dist q)).filter
        (fun x => decide (threshold < x.similarity))).insertionSort simDesc).Pairwise simDesc :=
      List.sorted_insertionSort simDesc _
    have hpw2 : (((rows.map (selectRow dist q)).filter
        (fun x => decide (threshold < x.similarity))).insertionSort simDesc).Pairwise
          (fun x y => (decide (1 - dist r.embedding q ≤ y.similarity)) = true →
            (decide (1 - dist r.embedding q ≤ x.similarity)) = true) := by
      refine hpw.imp ?_
      intro x y hxy hpy
      simp only [decide_eq_true_eq] at hpy ⊢
      exact le_trans hpy hxy
    have hcount : (((rows.map (selectRow dist q)).filter
        (fun x => decide (threshold < x.similarity))).insertionSort simDesc).countP
          (fun res => decide (1 - dist r.embedding q ≤ res.similarity)) ≤ lim := by
      have h1 := (List.perm_insertionSort simDesc
        ((rows.map (selectRow dist q)).filter
          (fun x => decide (threshold < x.similarity)))).countP_eq
            (fun res => decide (1 - dist r.embedding q ≤ res.similarity))
      have h2 : ((rows.map (selectRow dist q)).filter
          (fun x => decide (threshold < x.similarity))).countP
            (fun res => decide (1 - dist r.embedding q ≤ res.similarity)) ≤
          (rows.map (selectRow dist q)).countP
            (fun res => decide (1 - dist r.embedding q ≤ res.similarity)) :=
        (List.filter_sublist (rows.map (selectRow dist q))).countP_le
          (fun res => decide (1 - dist r.embedding q ≤ res.similarity))
      have h3 : (rows.map (selectRow dist q)).countP
          (fun res => decide (1 - dist r.embedding q ≤ res.similarity)) =
          rows.countP (fun x => 1 - dist r.embedding q ≤ 1 - dist x.embedding q) := by
        rw [List.countP_map]; rfl
      omega
    exact mem_take_of_pairwise_countP hpw2 hmemS (by simp [selectRow]) hcount
  · intro dist rows q lim res hres
    have h1 : res ∈ (rows.map (selectRow dist q)).filter
        (fun x => decide ((1 : ℚ) < x.similarity)) :=
      (List.mem_insertionSort _).mp (List.mem_of_mem_take hres)
    exact of_decide_eq_true (List.mem_filter.mp h1).2

/-- Witness for `top_rank_strict_threshold` at concrete rows. -/
theorem top_rank_strict_threshold_witness :
    selectRow cosDistUnit [1, 0] rowExact ∈
      performSearch cosDistUnit [rowExact] [1, 0] (mkRat 7 10) 10 ∧
    (1 : ℚ) < (selectRow cosDistUnit [1, 0] rowHigh).similarity :=
  ⟨top_rank_strict_threshold.1 cosDistUnit [rowExact] [1, 0] (mkRat 7 10) 10 rowExact
      (by decide) (by decide) (by decide),
   top_rank_strict_threshold.2 cosDistUnit [rowHigh] [1, 0] 10
      (selectRow cosDistUnit [1, 0] rowHigh) (by decide)⟩

/-- C1 counterexample: the claim as stated is false.  A stored row whose
cosine similarity to the query is exactly 1 (an exact match, here equal unit
vectors) is within the top `k` and satisfies `similarity ≥ threshold` for
`threshold = 1.0`, yet the search returns nothing, because the SQL `WHERE`
clause uses strict `>`. -/
theorem threshold_one_excludes_exact_match :
    performSearch cosDistUnit [rowExact] [1, 0] 1 10 = [] ∧
    (selectRow cosDistUnit [1, 0] rowExact).similarity = 1 :=
  ⟨by decide, by decide⟩

/-- C2 (amended): the result list is sorted by `similarity` (confidence)
descending — the SQL `ORDER BY similarity DESC`.  No further sort key is
applied, so the relative order of rows with equal similarity is whatever
order the scan produced, not a `(upstreamName, toolName)` tie-break. -/
theorem sorted_by_confidence :
    ∀ (dist : List ℚ → List ℚ → ℚ) (rows : List VRow) (q : List ℚ)
      (threshold : ℚ) (lim : ℕ),
      (performSearch dist rows q threshold lim).Pairwise
        (fun a b => b.similarity ≤ a.similarity) := by
  intro dist rows q threshold lim
  have hTotal : IsTotal RawResult simDesc := ⟨fun a b => le_total b.similarity a.similarity⟩
  have hTrans : IsTrans RawResult simDesc := ⟨fun a b c h1 h2 => le_trans h2 h1⟩
  exact (List.sorted_insertionSort simDesc _).sublist (List.take_sublist _ _)

/-- C2 counterexample: determinism by name does not hold.  Two rows with
equal similarity stored in the order `B`, `A` are returned in that stored
order, though `("A", "t")` precedes `("B", "t")` in the ascending order the
claim requires. -/
theorem no_name_tiebreak :
    performSearch cosDistUnit [rowTieB, rowTieA] [1, 0] (mkRat 7 10) 10 =
      [⟨"t", "B", "d", 1⟩, ⟨"t", "A", "d", 1⟩] ∧
    ("A" : String) < "B" :=
  ⟨by decide, by rw [String.lt_iff_toList_lt]; decide⟩

end VectorSearch

namespace MultiTenant

/-- C7 counterexample: the claim as stated is false.  An item whose `owner`
is the empty string is owned by a principal different from the non-admin
`alice`, yet `filterByOwnership` returns it to her, because `!item.owner`
uses JS truthiness and treats `""` as "no owner". -/
theorem empty_owner_visible_to_other_user :
    filterByOwnership [itemEmptyOwner] alice = [itemEmptyOwner] ∧
    itemEmptyOwner.owner ≠ none ∧
    itemEmptyOwner.owner ≠ some alice.username ∧
    alice.isAdmin = false :=
  ⟨by decide, by decide, by decide, by decide⟩

/-- C7 (amended): the filter returns the whole list for an admin; for a
non-admin it returns exactly the items whose owner is absent, is the empty
string (JS-falsy, treated as public), or equals the principal's username. -/
theorem filterByOwnership_visibility :
    (∀ (items : List Ownable) (user : User), user.isAdmin = true →
      filterByOwnership items user = items) ∧
    (∀ (items : List Ownable) (user : User) (item : Ownable), user.isAdmin = false →
      (item ∈ filterByOwnership items user ↔
        item ∈ items ∧ (item.owner = none ∨ item.owner = some "" ∨
          item.owner = some user.username))) := by
  constructor
  · intro items user h
    simp [filterByOwnership, h]
  · intro items user item h
    rw [filterByOwnership, if_neg (by simp [h]), List.mem_filter]
    refine and_congr_right fun _ => ?_
    cases howner : item.owner with
    | none => simp [JS.strTruthy, howner]
    | some s =>
      by_cases hs : s = "" <;>
        simp [JS.strTruthy, howner, hs]

/-- Witness for `filterByOwnership_visibility`: an admin sees all three
items; for the non-admin `alice` membership is characterised as amended. -/
theorem filterByOwnership_visibility_witness :
    filterByOwnership itemsW ⟨"root", true⟩ = itemsW ∧
    ((⟨"other", some "bob"⟩ : Ownable) ∈ filterByOwnership itemsW alice ↔
      (⟨"other", some "bob"⟩ : Ownable) ∈ itemsW ∧
        ((some "bob" : Option String) = none ∨ (some "bob" : Option String) = some "" ∨
          (some "bob" : Option String) = some alice.username)) :=
  ⟨filterByOwnership_visibility.1 itemsW ⟨"root", true⟩ rfl,
   filterByOwnership_visibility.2 itemsW alice ⟨"other", some "bob"⟩ rfl⟩

end MultiTenant

namespace Embeddings

/-- Names are injective on a tool list whose mapped names are nodup. -/
theorem name_inj_of_nodup {tools : List ToolText}
    (h : (tools.map (·.name)).Nodup) :
    ∀ {a b : ToolText}, a ∈ tools → b ∈ tools → a.name = b.name → a = b := by
  induction tools with
  | nil => intro a b ha _ _; cases ha
  | cons t ts ih =>
    rw [List.map_cons, List.nodup_cons] at h
    intro a b ha hb hn
    rcases List.mem_cons.mp ha with rfl | ha2 <;> rcases List.mem_cons.mp hb with rfl | hb2
    · rfl
    · exact absurd (hn ▸ List.mem_map_of_mem _ hb2) h.1
    · exact absurd (hn ▸ List.mem_map_of_mem _ ha2) h.1
    · exact ih h.2 ha2 hb2 hn

/-- A tool that is still reported is never in the removed set. -/
theorem not_removed_of_mem {tools : List ToolText} {stored : List StoredEmb}
    {t : ToolText} (ht : t ∈ tools) :
    (detectRemoved tools stored).contains t.name = false := by
  rw [Bool.eq_false_iff]
  intro hc
  obtain ⟨s, hs, hsn⟩ := List.mem_map.mp (List.elem_iff.mp hc)
  have hall := (List.all_eq_true.mp (List.mem_filter.mp hs).2) t ht
  rw [hsn] at hall
  simp at hall

/-- Filtering away only rows with other names does not change a lookup. -/
theorem findStored_filter {stored : List StoredEmb} {q : StoredEmb → Bool} {n : String}
    (h : ∀ s ∈ stored, s.name = n → q s = true) :
    findStored (stored.filter q) n = findStored stored n := by
  induction stored with
  | nil => rfl
  | cons s ss ih =>
    have htail : ∀ x ∈ ss, x.name = n → q x = true :=
      fun x hx => h x (List.mem_cons_of_mem _ hx)
    by_cases hn : s.name = n
    · have hq : q s = true := h s (List.mem_cons_self _ _) hn
      rw [List.filter_cons, if_pos hq]
      unfold findStored
      rw [List.find?_cons_of_pos _ (by simp [hn]), List.find?_cons_of_pos _ (by simp [hn])]
    · by_cases hq : q s = true
      · rw [List.filter_cons, if_pos hq]
        unfold findStored
        rw [List.find?_cons_of_neg _ (by simp [hn]), List.find?_cons_of_neg _ (by simp [hn])]
        exact ih htail
      · rw [List.filter_cons, if_neg hq]
        unfold findStored
        rw [List.find?_cons_of_neg _ (by simp [hn])]
        exact ih htail

/-- Lookup through a name-preserving row transformation. -/
theorem findStored_map_upd (rows : List StoredEmb) (upd : StoredEmb → StoredEmb)
    (hname : ∀ s, (upd s).name = s.name) (n : String) :
    findStored (rows.map upd) n = (findStored rows n).map upd := by
  unfold findStored
  rw [List.find?_map]
  have hpred : ((fun s : StoredEmb => s.name == n) ∘ upd) =
      (fun s : StoredEmb => s.name == n) :=
    funext fun s => by simp [Function.comp, hname]
  rw [hpred]

/-- Lookup of a mapped tool row in an image list with nodup names. -/
theorem find?_map_name_unique {l : List ToolText} (f : ToolText → StoredEmb)
    (hf : ∀ u, (f u).name = u.name)
    (hnd : (l.map (·.name)).Nodup) {t : ToolText} (ht : t ∈ l) :
    (l.map f).find? (fun s => s.name == t.name) = some (f t) := by
  induction l with
  | nil => cases ht
  | cons u us ih =>
    rw [List.map_cons, List.nodup_cons] at hnd
    rcases List.mem_cons.mp ht with rfl | ht2
    · rw [List.map_cons]
      exact List.find?_cons_of_pos _ (by simp [hf])
    · have hne : u.name ≠ t.name := fun he => hnd.1 (he ▸ List.mem_map_of_mem _ ht2)
      rw [List.map_cons, List.find?_cons_of_neg _ (by simp [hf, hne])]
      exact ih hnd.2 ht2

/-- Two disjoint filters cannot jointly exceed the list length. -/
theorem filter_length_add_le {α : Type} (l : List α) (p q : α → Bool)
    (h : ∀ x ∈ l, p x = true → q x = false) :
    (l.filter p).length + (l.filter q).length ≤ l.length := by
  induction l with
  | nil => simp
  | cons a as ih =>
    have ih2 := ih (fun x hx => h x (List.mem_cons_of_mem _ hx))
    cases hp : p a with
    | true =>
      have hq := h a (List.mem_cons_self _ _) hp
      simp [List.filter_cons, hp, hq]
      omega
    | false =>
      cases hq2 : q a <;> simp [List.filter_cons, hp, hq2] <;> omega

/-- When every reported tool matches its stored row, nothing is added and
nothing is updated. -/
theorem detect_nothing_of_match {stored : List StoredEmb} {tools : List ToolText}
    (hAll : ∀ t ∈ tools, ∃ s, findStored stored t.name = some s ∧ s.text = t.text) :
    detectAdded tools stored = [] ∧ detectUpdated tools stored = [] := by
  constructor
  · refine List.filter_eq_nil_iff.mpr ?_
    intro t ht
    obtain ⟨s, hs, _⟩ := hAll t ht
    simp [hs]
  · refine List.filter_eq_nil_iff.mpr ?_
    intro t ht
    obtain ⟨s, hs, htext⟩ := hAll t ht
    simp [hs, htext]

/-- After a sync, every reported tool has a stored row carrying its text. -/
theorem findStored_after_sync (embed : String → ℤ) (stored : List StoredEmb)
    {tools : List ToolText} (hnodup : (tools.map (·.name)).Nodup) :
    ∀ t ∈ tools, ∃ s, findStored (syncStored embed stored tools) t.name = some s ∧
      s.text = t.text := by
  intro t ht
  have hupdName : ∀ s : StoredEmb,
      ((match (detectUpdated tools stored).find? (fun u => u.name == s.name) with
        | some u => { s with text := u.text, vec := embed u.text }
        | none => s) : StoredEmb).name = s.name := by
    intro s
    cases h : (detectUpdated tools stored).find? (fun u => u.name == s.name) <;> simp
  cases hfind : findStored stored t.name with
  | some s0 =>
    have hs0name : s0.name = t.name := by
      have := List.find?_some hfind
      simpa using this
    have hremove : findStored (applyRemove tools stored) t.name = some s0 := by
      unfold applyRemove
      rw [findStored_filter (fun s _ hsn => by rw [hsn, not_removed_of_mem ht]; rfl)]
      exact hfind
    have hmapped := findStored_map_upd (applyRemove tools stored)
      (fun s => match (detectUpdated tools stored).find? (fun u => u.name == s.name) with
        | some u => { s with text := u.text, vec := embed u.text }
        | none => s) hupdName t.name
    cases hup : (detectUpdated tools stored).find? (fun u => u.name == s0.name) with
    | some t2 =>
      have ht2mem : t2 ∈ detectUpdated tools stored := List.mem_of_find?_eq_some hup
      have ht2name : t2.name = s0.name := by
        have := List.find?_some hup
        simpa using this
      have ht2tools : t2 ∈ tools := (List.mem_filter.mp ht2mem).1
      have ht2eq : t2 = t := name_inj_of_nodup hnodup ht2tools ht (by rw [ht2name, hs0name])
      refine ⟨{ s0 with text := t.text, vec := embed t.text }, ?_, rfl⟩
      unfold syncStored findStored
      rw [List.find?_append]
      have : findStored (applyUpdate embed tools stored) t.name =
          some { s0 with text := t.text, vec := embed t.text } := by
        unfold applyUpdate
        rw [hmapped, hremove]
        simp only [Option.map_some']
        rw [hup, ht2eq]
      unfold findStored at this
      rw [this]
      rfl
    | none =>
      have htnot : t ∉ detectUpdated tools stored := by
        intro htu
        have := List.find?_eq_none.mp hup t htu
        rw [hs0name] at this
        simp at this
      have htext : s0.text = t.text := by
        have hpred : ¬((match findStored stored t.name with
            | some s => !(s.text == t.text)
            | none => false) = true) :=
          fun hp => htnot (List.mem_filter.mpr ⟨ht, hp⟩)
        rw [hfind] at hpred
        simpa using hpred
      refine ⟨s0, ?_, htext⟩
      unfold syncStored findStored
      rw [List.find?_append]
      have : findStored (applyUpdate embed tools stored) t.name = some s0 := by
        unfold applyUpdate
        rw [hmapped, hremove]
        simp only [Option.map_some']
        rw [hup]
      unfold findStored at this
      rw [this]
      rfl
  | none =>
    have htadded : t ∈ detectAdded tools stored :=
      List.mem_filter.mpr ⟨ht, by simp [hfind]⟩
    have haddnd : ((detectAdded tools stored).map (·.name)).Nodup := by
      have hsub : List.Sublist ((detectAdded tools stored).map (·.name))
          (tools.map (·.name)) :=
        (List.filter_sublist tools).map _
      exact hnodup.sublist hsub
    have hupdNone : findStored (applyUpdate embed tools stored) t.name = none := by
      unfold applyUpdate
      rw [findStored_map_upd _ _ hupdName]
      have : findStored (applyRemove tools stored) t.name = none := by
        unfold findStored at hfind ⊢
        refine List.find?_eq_none.mpr fun x hx => ?_
        exact List.find?_eq_none.mp hfind x (List.mem_of_mem_filter hx)
      rw [this]
      rfl
    refine ⟨⟨t.name, t.text, embed t.text⟩, ?_, rfl⟩
    unfold syncStored findStored
    rw [List.find?_append]
    unfold findStored at hupdNone
    rw [hupdNone]
    simp only [Option.none_or]
    exact find?_map_name_unique _ (fun _ => rfl) haddnd htadded

/-- C8: upserting is idempotent on unchanged text.  (1) If every reported
tool's `(name, text)` matches its stored row, the sync makes no Embedder call
and each such row keeps its stored value (text and vector).  (2) A second
sync over the same tool list makes no Embedder call, so two consecutive
upserts of the same rows call the Embedder at most once per row — formally,
(3) a single sync never calls the Embedder more often than the number of
rows. -/
theorem syncEmbeddings_idempotent :
    (∀ (embed : String → ℤ) (stored : List StoredEmb) (tools : List ToolText),
      (∀ t ∈ tools, ∃ s, findStored stored t.name = some s ∧ s.text = t.text) →
      (syncServer embed stored tools).2 = 0 ∧
      (∀ t ∈ tools, findStored (syncServer embed stored tools).1 t.name =
        findStored stored t.name)) ∧
    (∀ (embed : String → ℤ) (stored : List StoredEmb) (tools : List ToolText),
      (tools.map (·.name)).Nodup →
      (syncServer embed (syncServer embed stored tools).1 tools).2 = 0) ∧
    (∀ (embed : String → ℤ) (stored : List StoredEmb) (tools : List ToolText),
      (syncServer embed stored tools).2 ≤ tools.length) := by
  refine ⟨?_, ?_, ?_⟩
  · intro embed stored tools hAll
    obtain ⟨hadded, hupdated⟩ := detect_nothing_of_match hAll
    constructor
    · show (detectAdded tools stored).length + (detectUpdated tools stored).length = 0
      rw [hadded, hupdated]
      rfl
    · intro t ht
      show findStored (syncStored embed stored tools) t.name = findStored stored t.name
      unfold syncStored applyUpdate
      rw [hadded, hupdated]
      simp only [List.find?_nil, List.map_nil, List.append_nil]
      have hid : ((applyRemove tools stored).map (fun s =>
          (match (none : Option ToolText) with
            | some u => { s with text := u.text, vec := embed u.text }
            | none => s : StoredEmb))) = applyRemove tools stored := by
        simp
      rw [hid]
      unfold applyRemove
      exact findStored_filter (fun s _ hsn => by rw [hsn, not_removed_of_mem ht]; rfl)
  · intro embed stored tools hnodup
    have hAll := findStored_after_sync embed stored hnodup
    obtain ⟨hadded, hupdated⟩ := detect_nothing_of_match hAll
    show (detectAdded tools (syncStored embed stored tools)).length +
      (detectUpdated tools (syncStored embed stored tools)).length = 0
    rw [hadded, hupdated]
    rfl
  · intro embed stored tools
    show (detectAdded tools stored).length + (detectUpdated tools stored).length ≤ _
    unfold detectAdded detectUpdated
    refine filter_length_add_le tools _ _ ?_
    intro t _ hp
    rcases h : findStored stored t.name with _ | s
    · rfl
    · rw [h] at hp
      simp at hp

/-- Witness for `syncEmbeddings_idempotent`: a matching row causes no
Embedder call; a second sync after adding a new tool causes no further
call. -/
theorem syncEmbeddings_idempotent_witness :
    (syncServer embedLen storedW [⟨"a", "x"⟩]).2 = 0 ∧
    (syncServer embedLen (syncServer embedLen storedW toolsW).1 toolsW).2 = 0 :=
  ⟨(syncEmbeddings_idempotent.1 embedLen storedW [⟨"a", "x"⟩]
      (fun t ht => by
        rw [List.mem_singleton.mp ht]
        exact ⟨⟨"a", "x", 5⟩, rfl, rfl⟩)).1,
   syncEmbeddings_idempotent.2.1 embedLen storedW toolsW (by decide)⟩

end Embeddings

namespace Hub

/-- Dispatch of the `switch` for the tools the claims exercise. -/
theorem executeTool_add_server (env : Env) (args : Args) :
    executeTool env "add_server" args = caseAddServer env args := rfl

theorem executeTool_update_server (env : Env) (args : Args) :
    executeTool env "update_server" args = caseUpdateServer env args := rfl

theorem executeTool_toggle_tool (env : Env) (args : Args) :
    executeTool env "toggle_tool" args = caseToggleTool env args := rfl

theorem executeTool_list_all_tools (env : Env) (args : Args) :
    executeTool env "list_all_tools" args = caseListAllTools env args := rfl

theorem executeTool_export_configuration (env : Env) (args : Args) :
    executeTool env "export_configuration" args = caseExportConfiguration env args := rfl

theorem executeTool_import_configuration (env : Env) (args : Args) :
    executeTool env "import_configuration" args = caseImportConfiguration env args := rfl

/-- Soundness of `list_all_tools` without `includeDisabled`: every returned
row comes from a configured, enabled server and its per-tool flag is not
`false`. -/
theorem listAllTools_sound {env : Env} {s : Settings} {argSrv : Option String}
    {row : ToolRow} (h : row ∈ listAllTools env s argSrv false) :
    ∃ cfg, (row.server, cfg) ∈ s.mcpServers.getD [] ∧
      JS.boolTruthy cfg.enabled = true ∧ toolEnabledB cfg row.name = true ∧
      row.enabled = true := by
  obtain ⟨entry, hentry, hrow⟩ := List.mem_flatMap.mp h
  unfold serverToolRows at hrow
  split at hrow
  · exact absurd hrow (List.not_mem_nil _)
  · split at hrow
    · exact absurd hrow (List.not_mem_nil _)
    · rename_i h1 h2
      have hen : JS.boolTruthy entry.2.enabled = true := by
        simpa using h2
      split at hrow
      · exact absurd hrow (List.not_mem_nil _)
      · rename_i client hcl
        split at hrow
        · exact absurd hrow (List.not_mem_nil _)
        · rename_i toolsOpt hlt
          obtain ⟨tool, htool, hsome⟩ := List.mem_filterMap.mp hrow
          split at hsome
          · cases hsome
          · rename_i h3
            have htoolEn : toolEnabledB entry.2 tool.name = true := by
              simpa using h3
            injection hsome with hsome
            subst hsome
            exact ⟨entry.2, hentry, hen, htoolEn, htoolEn⟩

/-- Completeness of `list_all_tools` for one server entry. -/
theorem serverToolRows_complete {env : Env} {entry : String × ServerConfig}
    {client : Client} {toolsOpt : Option (List UpTool)} {tool : UpTool}
    (hen : JS.boolTruthy entry.2.enabled = true)
    (hcl : env.getClient entry.1 = some client)
    (hlt : client.listToolsResult = .ok toolsOpt)
    (htool : tool ∈ toolsOpt.getD [])
    (henabled : toolEnabledB entry.2 tool.name = true) :
    mkToolRow entry.1 entry.2 tool ∈ serverToolRows env none false entry := by
  unfold serverToolRows
  rw [if_neg (by simp [JS.strTruthy])]
  rw [if_neg (by simp [hen])]
  simp only [hcl, hlt]
  exact List.mem_filterMap.mpr ⟨tool, htool, by rw [if_neg (by simp [henabled])]⟩

/-- Completeness of `list_all_tools`: an enabled reported tool of an enabled,
connected server appears in the output. -/
theorem listAllTools_complete {env : Env} {s : Settings} {srv : String}
    {cfg : ServerConfig} {client : Client} {toolsOpt : Option (List UpTool)}
    {tool : UpTool}
    (hmem : (srv, cfg) ∈ s.mcpServers.getD [])
    (hen : JS.boolTruthy cfg.enabled = true)
    (hcl : env.getClient srv = some client)
    (hlt : client.listToolsResult = .ok toolsOpt)
    (htool : tool ∈ toolsOpt.getD [])
    (henabled : toolEnabledB cfg tool.name = true) :
    mkToolRow srv cfg tool ∈ listAllTools env s none false :=
  List.mem_flatMap.mpr ⟨(srv, cfg), hmem,
    serverToolRows_complete hen hcl hlt htool henabled⟩

/-- C3: a tool is treated as enabled iff its per-tool `enabled` flag is
absent or `true`; `list_all_tools` without `includeDisabled` returns exactly
the rows of enabled servers whose per-tool flag is not explicitly `false`
(soundness and completeness). -/
theorem list_all_tools_enabled_iff :
    (∀ (cfg : ServerConfig) (t : String), toolEnabledB cfg t = true ↔
      ((toolCfgOf cfg t).bind (·.enabled) = none ∨
        (toolCfgOf cfg t).bind (·.enabled) = some true)) ∧
    (∀ (env : Env) (s : Settings) (argSrv : Option String) (row : ToolRow),
      row ∈ listAllTools env s argSrv false →
      ∃ cfg, (row.server, cfg) ∈ s.mcpServers.getD [] ∧
        JS.boolTruthy cfg.enabled = true ∧ toolEnabledB cfg row.name = true ∧
        row.enabled = true) ∧
    (∀ (env : Env) (s : Settings) (srv : String) (cfg : ServerConfig)
        (client : Client) (toolsOpt : Option (List UpTool)) (tool : UpTool),
      (srv, cfg) ∈ s.mcpServers.getD [] →
      JS.boolTruthy cfg.enabled = true →
      env.getClient srv = some client →
      client.listToolsResult = .ok toolsOpt →
      tool ∈ toolsOpt.getD [] →
      toolEnabledB cfg tool.name = true →
      mkToolRow srv cfg tool ∈ listAllTools env s none false) := by
  refine ⟨?_, ?_, ?_⟩
  · intro cfg t
    rcases h : (toolCfgOf cfg t).bind (·.enabled) with _ | b
    · simp [toolEnabledB, JS.neFalse, h]
    · cases b <;> simp [toolEnabledB, JS.neFalse, h]
  · intro env s argSrv row h
    exact listAllTools_sound h
  · intro env s srv cfg client toolsOpt tool hmem hen hcl hlt htool henabled
    exact listAllTools_complete hmem hen hcl hlt htool henabled

/-- Witness for `list_all_tools_enabled_iff` at the concrete configuration
`settingsA` / `envA`. -/
theorem list_all_tools_enabled_iff_witness :
    (toolEnabledB cfgA "off" = true ↔
      ((toolCfgOf cfgA "off").bind (·.enabled) = none ∨
        (toolCfgOf cfgA "off").bind (·.enabled) = some true)) ∧
    mkToolRow "a" cfgA { name := "u" } ∈ listAllTools envA settingsA none false ∧
    (∃ cfg, ((mkToolRow "a" cfgA { name := "u" }).server, cfg) ∈
        settingsA.mcpServers.getD [] ∧
      JS.boolTruthy cfg.enabled = true ∧
      toolEnabledB cfg (mkToolRow "a" cfgA { name := "u" }).name = true ∧
      (mkToolRow "a" cfgA { name := "u" }).enabled = true) :=
  ⟨list_all_tools_enabled_iff.1 cfgA "off",
   list_all_tools_enabled_iff.2.2 envA settingsA "a" cfgA clientA
     (some [{ name := "t", description := some "upstream desc" },
            { name := "off", description := some "d2" },
            { name := "u" }]) { name := "u" }
     (by decide) rfl rfl rfl (by decide) rfl,
   list_all_tools_enabled_iff.2.1 envA settingsA none (mkToolRow "a" cfgA { name := "u" })
     (list_all_tools_enabled_iff.2.2 envA settingsA "a" cfgA clientA
       (some [{ name := "t", description := some "upstream desc" },
              { name := "off", description := some "d2" },
              { name := "u" }]) { name := "u" }
       (by decide) rfl rfl rfl (by decide) rfl)⟩

/-- C4 counterexample: the claim as stated is false for an empty-string
override.  In `settingsA` the operator sets the description override of tool
`t` to `""`, but `list_all_tools` reports the upstream description, because
`toolConfig?.description || tool.description` treats `""` as falsy. -/
theorem empty_override_reports_upstream :
    listAllTools envA settingsA none false =
      [{ server := "a", name := "t", description := some "upstream desc",
         enabled := true, customDescription := false },
       { server := "a", name := "u", description := none,
         enabled := true, customDescription := false }] ∧
    (toolCfgOf cfgA "t").bind (·.description) = some "" ∧
    some "upstream desc" ≠ (some "" : Option String) :=
  ⟨by decide, rfl, by decide⟩

/-- C4 (amended): the reported description equals the override whenever the
override is set to a non-empty string, and falls back to the
upstream-reported description when the override is absent or the empty
string. -/
theorem tool_description_override :
    (∀ (srv : String) (cfg : ServerConfig) (tool : UpTool) (d : String),
      (toolCfgOf cfg tool.name).bind (·.description) = some d → d ≠ "" →
      (mkToolRow srv cfg tool).description = some d) ∧
    (∀ (srv : String) (cfg : ServerConfig) (tool : UpTool),
      ((toolCfgOf cfg tool.name).bind (·.description) = none ∨
        (toolCfgOf cfg tool.name).bind (·.description) = some "") →
      (mkToolRow srv cfg tool).description = tool.description) := by
  constructor
  · intro srv cfg tool d h hne
    simp [mkToolRow, JS.orOpt, h, hne]
  · intro srv cfg tool h
    rcases h with h | h <;> simp [mkToolRow, JS.orOpt, h]

/-- Witness for `tool_description_override`: a non-empty override (`"od"` on
tool `x` of `cfgT`) wins; the absent override on tool `u` of `cfgA` falls
back to the upstream description. -/
theorem tool_description_override_witness :
    (mkToolRow "a" cfgT { name := "x", description := some "ud" }).description =
      some "od" ∧
    (mkToolRow "a" cfgA { name := "u", description := some "up" }).description =
      some "up" :=
  ⟨tool_description_override.1 "a" cfgT { name := "x", description := some "ud" } "od"
      rfl (by decide),
   tool_description_override.2 "a" cfgA { name := "u", description := some "up" }
      (Or.inl rfl)⟩

/-- The validation loop reports some error when the list contains a stdio
entry without a truthy command. -/
theorem validateImportServers_some {l : List (String × ServerConfig)} {n : String}
    {sc : ServerConfig} (hmem : (n, sc) ∈ l) (hty : sc.type = some "stdio")
    (hcmd : JS.strTruthy sc.command = false) :
    ∃ e, validateImportServers l = some e := by
  induction l with
  | nil => cases hmem
  | cons hd tl ih =>
    obtain ⟨m, mc⟩ := hd
    by_cases h1 : (mc.type == some "stdio" && !(JS.strTruthy mc.command)) = true
    · exact ⟨_, by unfold validateImportServers; rw [if_pos h1]⟩
    · by_cases h2 : ((mc.type == some "sse" || mc.type == some "streamable-http")
          && !(JS.strTruthy mc.url)) = true
      · exact ⟨_, by unfold validateImportServers; rw [if_neg h1, if_pos h2]⟩
      · rcases List.mem_cons.mp hmem with heq | hmem2
        · exfalso
          apply h1
          injection heq with hn hc
          rw [← hc, hty, hcmd]
          rfl
        · obtain ⟨e, he⟩ := ih hmem2
          exact ⟨e, by unfold validateImportServers; rw [if_neg h1, if_neg h2]; exact he⟩

/-- C5 counterexample: the claim as stated is false for imports.  Importing a
configuration that contains a stdio server with no `command`, without
`validate: true`, throws nothing and saves the invalid configuration. -/
theorem import_skips_validation_without_flag :
    executeTool envBare "import_configuration" argsImportPlain =
      ⟨.ok (.opMsg true "Configuration imported successfully"),
       { saves := [badImportCfg], reinits := 0, scheduledReinits := 0 }⟩ ∧
    badImportCfg.mcpServers = some [("s", stdioNoCmd)] ∧
    stdioNoCmd.type = some "stdio" ∧
    stdioNoCmd.command = none :=
  ⟨rfl, rfl, rfl, rfl⟩

/-- C5 (amended): `add_server` rejects a stdio server whose command is
missing or empty before saving — the settings are not saved, the server is
not added and no client reinitialization happens; the same rejection and
atomicity hold for `import_configuration`, but only when `validate` is
truthy. -/
theorem stdio_missing_command_rejected :
    (∀ (env : Env) (args : Args) (s : Settings),
      env.loadSettingsResult = .ok s →
      JS.orD args.type "stdio" = "stdio" →
      JS.orD args.command "" = "" →
      RejectedAtomically (executeTool env "add_server" args) ∧
      ((s.mcpServers.getD []).lookup (argStr args.name) = none →
        (executeTool env "add_server" args).result =
          .error "Command is required for stdio servers")) ∧
    (∀ (env : Env) (args : Args) (cfg : Settings) (n : String) (sc : ServerConfig),
      args.config = some cfg →
      JS.boolTruthy args.validate = true →
      (n, sc) ∈ cfg.mcpServers.getD [] →
      sc.type = some "stdio" →
      JS.strTruthy sc.command = false →
      RejectedAtomically (executeTool env "import_configuration" args)) := by
  constructor
  · intro env args s hload hty hcmd
    rw [executeTool_add_server]
    simp only [caseAddServer, withSettings, hload]
    rw [hty, hcmd]
    by_cases hex : ((s.mcpServers.getD []).lookup (argStr args.name)).isSome = true
    · rw [if_pos hex]
      refine ⟨⟨⟨_, rfl⟩, rfl, rfl⟩, fun hnone => absurd hex (by rw [hnone]; simp)⟩
    · rw [if_neg hex, if_pos (by decide)]
      exact ⟨⟨⟨_, rfl⟩, rfl, rfl⟩, fun _ => rfl⟩
  · intro env args cfg n sc hconfig hval hmem hty hcmd
    rw [executeTool_import_configuration]
    simp only [caseImportConfiguration, hconfig]
    rw [if_pos hval]
    have hl : ∃ l, cfg.mcpServers = some l := by
      cases h : cfg.mcpServers with
      | none => rw [h] at hmem; simp at hmem
      | some l => exact ⟨l, rfl⟩
    obtain ⟨l, hl⟩ := hl
    rw [if_neg (by simp [hl])]
    obtain ⟨e, he⟩ := validateImportServers_some (by rw [hl] at hmem; simpa using hmem)
      hty hcmd
    rw [hl]
    simp only [Option.getD_some, he]
    exact ⟨⟨e, rfl⟩, rfl, rfl⟩

/-- Witness for `stdio_missing_command_rejected` at concrete inputs. -/
theorem stdio_missing_command_rejected_witness :
    RejectedAtomically (executeTool envBare "add_server" argsAddNoCmd) ∧
    (executeTool envBare "add_server" argsAddNoCmd).result =
      .error "Command is required for stdio servers" ∧
    RejectedAtomically (executeTool envBare "import_configuration" argsImportValidate) :=
  ⟨(stdio_missing_command_rejected.1 envBare argsAddNoCmd {} rfl rfl rfl).1,
   (stdio_missing_command_rejected.1 envBare argsAddNoCmd {} rfl rfl rfl).2 rfl,
   stdio_missing_command_rejected.2 envBare argsImportValidate badImportCfg "s"
     stdioNoCmd rfl rfl (by decide) rfl rfl⟩

/-- Unfolding of `List.lookup` on a cons cell. -/
theorem lookup_cons {β : Type} (k m : String) (v : β) (ps : List (String × β)) :
    ((k, v) :: ps).lookup m = if (m == k) = true then some v else ps.lookup m := by
  show List.lookup m ((k, v) :: ps) = _
  cases hmk : m == k with
  | true => simp [List.lookup, hmk]
  | false => simp [List.lookup, hmk]

/-- Unfolding of `updAt` on a cons cell. -/
theorem updAt_cons {β : Type} (k n : String) (v : β) (ps : List (String × β))
    (g : β → β) :
    updAt ((k, v) :: ps) n g =
      (if (k == n) = true then (k, g v) else (k, v)) :: updAt ps n g := rfl

/-- Object update at one key leaves the other keys' lookups unchanged. -/
theorem lookup_updAt_ne {β : Type} (l : List (String × β)) (n m : String) (g : β → β)
    (h : m ≠ n) : (updAt l n g).lookup m = l.lookup m := by
  induction l with
  | nil => rfl
  | cons p ps ih =>
    obtain ⟨k, v⟩ := p
    rw [updAt_cons]
    by_cases hk : (k == n) = true
    · rw [if_pos hk, lookup_cons, lookup_cons]
      have hmk : ¬((m == k) = true) := by
        simp only [beq_iff_eq] at hk ⊢
        rw [hk]
        exact h
      rw [if_neg hmk, if_neg hmk]
      exact ih
    · rw [if_neg hk, lookup_cons, lookup_cons]
      by_cases hmk : (m == k) = true
      · rw [if_pos hmk, if_pos hmk]
      · rw [if_neg hmk, if_neg hmk]
        exact ih

/-- Object update at one key maps that key's lookup. -/
theorem lookup_updAt_self {β : Type} (l : List (String × β)) (n : String) (g : β → β) :
    (updAt l n g).lookup n = (l.lookup n).map g := by
  induction l with
  | nil => rfl
  | cons p ps ih =>
    obtain ⟨k, v⟩ := p
    rw [updAt_cons]
    by_cases hk : (k == n) = true
    · rw [if_pos hk, lookup_cons, lookup_cons]
      have hnk : (n == k) = true := by
        simp only [beq_iff_eq] at hk ⊢
        exact hk.symm
      rw [if_pos hnk, if_pos hnk, Option.map_some']
    · rw [if_neg hk, lookup_cons, lookup_cons]
      have hnk : ¬((n == k) = true) := by
        simp only [beq_iff_eq] at hk ⊢
        exact fun he => hk he.symm
      rw [if_neg hnk, if_neg hnk]
      exact ih

/-- Appending a fresh key does not change other lookups. -/
theorem lookup_append_single_ne {β : Type} (l : List (String × β)) (k m : String)
    (v : β) (h : m ≠ k) : (l ++ [(k, v)]).lookup m = l.lookup m := by
  induction l with
  | nil =>
    rw [List.nil_append, lookup_cons, if_neg (by simp [h])]
  | cons p ps ih =>
    obtain ⟨k2, v2⟩ := p
    rw [List.cons_append, lookup_cons, lookup_cons]
    by_cases hmk : (m == k2) = true
    · rw [if_pos hmk, if_pos hmk]
    · rw [if_neg hmk, if_neg hmk]
      exact ih

/-- Appending a fresh key makes it found when it was absent. -/
theorem lookup_append_single_self {β : Type} (l : List (String × β)) (k : String)
    (v : β) (h : l.lookup k = none) : (l ++ [(k, v)]).lookup k = some v := by
  induction l with
  | nil =>
    rw [List.nil_append, lookup_cons, if_pos (by simp)]
  | cons p ps ih =>
    obtain ⟨k2, v2⟩ := p
    rw [List.cons_append, lookup_cons]
    rw [lookup_cons] at h
    by_cases hmk : (k == k2) = true
    · rw [if_pos hmk] at h
      cases h
    · rw [if_neg hmk] at h
      rw [if_neg hmk]
      exact ih h

/-- Replacing one server's configuration leaves other lookups unchanged. -/
theorem lookup_setServer_ne (servers : List (String × ServerConfig))
    (srv m : String) (c : ServerConfig) (h : m ≠ srv) :
    (setServer servers srv c).lookup m = servers.lookup m :=
  lookup_updAt_ne servers srv m _ h

/-- Replacing an existing server's configuration is visible at its key. -/
theorem lookup_setServer_self (servers : List (String × ServerConfig))
    (srv : String) (c c0 : ServerConfig) (h : servers.lookup srv = some c0) :
    (setServer servers srv c).lookup srv = some c := by
  unfold setServer
  rw [lookup_updAt_self, h, Option.map_some']

/-- The `toggle_tool` update leaves other tools' lookups unchanged. -/
theorem lookup_toggledTools_ne (tools : List (String × ToolConfig))
    (toolName t : String) (enabled : Option Bool) (h : t ≠ toolName) :
    (toggledTools tools toolName enabled).lookup t = tools.lookup t := by
  unfold toggledTools
  cases hlk : tools.lookup toolName with
  | none => exact lookup_append_single_ne _ _ _ _ h
  | some tc0 => exact lookup_updAt_ne _ _ _ _ h

/-- The `toggle_tool` update sets exactly the `enabled` field of the target
tool and preserves its description override. -/
theorem lookup_toggledTools_self (tools : List (String × ToolConfig))
    (toolName : String) (enabled : Option Bool) :
    ∃ tc, (toggledTools tools toolName enabled).lookup toolName = some tc ∧
      tc.enabled = enabled ∧
      tc.description = (tools.lookup toolName).bind (·.description) := by
  unfold toggledTools
  cases hlk : tools.lookup toolName with
  | none =>
    refine ⟨{ enabled := enabled, description := none }, ?_, rfl, rfl⟩
    exact lookup_append_single_self _ _ _ hlk
  | some tc0 =>
    refine ⟨{ tc0 with enabled := enabled }, ?_, rfl, rfl⟩
    rw [lookup_updAt_self, hlk, Option.map_some']

/-- C6: `toggle_tool` performs no client reinitialization and changes the
settings only at `mcpServers[server].tools[toolName].enabled`; by contrast
`update_server` reinitializes the clients (once its save succeeds). -/
theorem toggle_tool_overlay_only :
    (∀ (env : Env) (args : Args) (s : Settings) (srv : String) (cfg : ServerConfig),
      env.loadSettingsResult = .ok s →
      args.server = some srv →
      (s.mcpServers.getD []).lookup srv = some cfg →
      ToggleToolFrame env args s srv cfg) ∧
    (∀ (env : Env) (args : Args) (s : Settings) (srv : String) (cfg : ServerConfig),
      env.loadSettingsResult = .ok s →
      args.name = some srv →
      (s.mcpServers.getD []).lookup srv = some cfg →
      env.saveErr = none →
      (executeTool env "update_server" args).effects.reinits = 1) := by
  constructor
  · intro env args s srv cfg hload hsrv hlookup
    unfold ToggleToolFrame
    rw [executeTool_toggle_tool]
    simp only [caseToggleTool, withSettings, hload, hsrv, argStr, Option.getD_some]
    simp only [hlookup]
    cases hsv : env.saveErr with
    | some e =>
      simp only [saveThen, hsv]
      exact ⟨by trivial, by trivial, _, rfl, rfl, rfl, rfl,
        fun m hm => lookup_setServer_ne _ _ _ _ hm,
        _, lookup_setServer_self _ _ _ _ hlookup, rfl, rfl, rfl, rfl, rfl, rfl,
        fun t ht => lookup_toggledTools_ne _ _ _ _ ht,
        lookup_toggledTools_self _ _ _⟩
    | none =>
      simp only [saveThen, hsv, pureOut]
      exact ⟨by trivial, by trivial, _, rfl, rfl, rfl, rfl,
        fun m hm => lookup_setServer_ne _ _ _ _ hm,
        _, lookup_setServer_self _ _ _ _ hlookup, rfl, rfl, rfl, rfl, rfl, rfl,
        fun t ht => lookup_toggledTools_ne _ _ _ _ ht,
        lookup_toggledTools_self _ _ _⟩
  · intro env args s srv cfg hload hname hlookup hsv
    rw [executeTool_update_server]
    simp only [caseUpdateServer, withSettings, hload, hname, argStr, Option.getD_some]
    simp only [hlookup]
    simp only [saveThen, hsv]
    cases hre : env.reinitErr with
    | some e => simp [reinitThen, hre]
    | none => simp [reinitThen, hre, pureOut]

/-- Witness for `toggle_tool_overlay_only` at `settingsT`. -/
theorem toggle_tool_overlay_only_witness :
    ToggleToolFrame envT argsToggleX settingsT "a" cfgT ∧
    (executeTool envT "update_server" argsUpdateA).effects.reinits = 1 :=
  ⟨toggle_tool_overlay_only.1 envT argsToggleX settingsT "a" cfgT rfl rfl rfl,
   toggle_tool_overlay_only.2 envT argsUpdateA settingsT "a" cfgT rfl rfl rfl rfl⟩

/-- C9: `callTool` is total at its interface.  For every tool name (known or
not) and arguments the result has the shape
`{ content: [ { type: 'text', text } ] }`; every error thrown inside
`executeTool` is caught and reported as a text block starting with
`Error: `; an unknown name reaches the `default` case, which throws
`Unknown tool: <name>`. -/
theorem callTool_total_shape :
    ∀ (stringify : ExecVal → String) (env : Env) (name : String) (args : Args),
      (∃ t, callTool stringify env name args = ⟨[⟨"text", t⟩]⟩) ∧
      (∀ e, (executeTool env name args).result = .error e →
        callTool stringify env name args = ⟨[⟨"text", "Error: " ++ e⟩]⟩) ∧
      (name ∉ knownToolNames →
        executeTool env name args = errOut ("Unknown tool: " ++ name)) := by
  intro stringify env name args
  refine ⟨?_, ?_, ?_⟩
  · cases h : (executeTool env name args).result with
    | ok v => exact ⟨stringify v, by unfold callTool; simp only [h]⟩
    | error e => exact ⟨"Error: " ++ e, by unfold callTool; simp only [h]⟩
  · intro e he
    unfold callTool
    simp only [he]
  · intro hne
    simp only [knownToolNames, List.mem_cons, List.not_mem_nil, or_false,
      not_or] at hne
    obtain ⟨h1, h2, h3, h4, h5, h6, h7, h8, h9, h10, h11, h12, h13, h14, h15,
      h16, h17, h18, h19, h20⟩ := hne
    unfold executeTool
    rw [if_neg h1, if_neg h2, if_neg h3, if_neg h4, if_neg h5, if_neg h6,
      if_neg h7, if_neg h8, if_neg h9, if_neg h10, if_neg h11, if_neg h12,
      if_neg h13, if_neg h14, if_neg h15, if_neg h16, if_neg h17, if_neg h18,
      if_neg h19, if_neg h20]

/-- Witness for `callTool_total_shape`: the unknown name `bogus` yields the
wrapped `Unknown tool` error block. -/
theorem callTool_total_shape_witness :
    callTool stringifyNone envBare "bogus" argsNone =
      ⟨[⟨"text", "Error: Unknown tool: bogus"⟩]⟩ := by
  have h := callTool_total_shape stringifyNone envBare "bogus" argsNone
  have h3 := h.2.2 (by decide)
  exact h.2.1 "Unknown tool: bogus" (by rw [h3]; rfl)

/-- C10 counterexample: the claim as stated is false.  With
`openaiApiKey = ""` (set, but falsy) the export leaves the empty string in
place instead of `***REDACTED***`, and two settings that differ only in the
stored key value (`""` vs `"sk-123"`) produce different exports. -/
theorem export_empty_apikey_not_redacted :
    (executeTool envSec1 "export_configuration" argsNone).result =
      .ok (.settingsVal (redactSettings settingsSec1)) ∧
    (redactSettings settingsSec1).smartRouting = some { openaiApiKey := some "" } ∧
    redactSettings settingsSec1 ≠ redactSettings settingsSec2 ∧
    settingsSec1.mcpServers = settingsSec2.mcpServers :=
  ⟨rfl, rfl, by decide, rfl⟩

/-- C10 (amended): without `includeSecrets` the export (1) replaces
`smartRouting.openaiApiKey` with `***REDACTED***` whenever it is set to a
non-empty (truthy) value, (2) replaces every environment-variable value whose
name contains `key`, `secret` or `password` case-insensitively, so (3) the
export is independent of the stored key value among non-empty values and (4)
independent of all secret-named environment values; (5) `export_configuration`
returns exactly this redacted settings value. -/
theorem export_redacts_secrets :
    (∀ (s : Settings) (sr : SmartRoutingCfg), s.smartRouting = some sr →
      JS.strTruthy sr.openaiApiKey = true →
      (redactSettings s).smartRouting =
        some { sr with openaiApiKey := some "***REDACTED***" }) ∧
    (∀ (s : Settings) (p : String × ServerConfig) (kv : String × String),
      p ∈ (redactSettings s).mcpServers.getD [] → kv ∈ p.2.env.getD [] →
      isSecretKeyName kv.1 = true → kv.2 = "***REDACTED***") ∧
    (∀ (s : Settings) (k1 k2 : String), k1 ≠ "" → k2 ≠ "" →
      redactSettings (setApiKey s k1) = redactSettings (setApiKey s k2)) ∧
    (∀ (s : Settings) (f : String → String → String),
      redactSettings (mapSecretEnvValues s f) = redactSettings s) ∧
    (∀ (env : Env) (s : Settings) (args : Args),
      env.loadSettingsResult = .ok s →
      JS.boolTruthy args.includeSecrets = false →
      (executeTool env "export_configuration" args).result =
        .ok (.settingsVal (redactSettings s))) := by
  refine ⟨?_, ?_, ?_, ?_, ?_⟩
  · intro s sr h htruthy
    simp only [redactSettings, h]
    rw [if_pos htruthy]
  · intro s p kv hp hkv hsec
    cases hms : s.mcpServers with
    | none =>
      simp [redactSettings, hms] at hp
    | some l =>
      simp only [redactSettings, hms, Option.getD_some] at hp
      obtain ⟨q, hq, hqe⟩ := List.mem_map.mp hp
      subst hqe
      unfold redactServerEntry at hkv
      cases he : q.2.env with
      | none => simp [he] at hkv
      | some evs =>
        simp only [he, Option.getD_some] at hkv
        unfold redactEnvList at hkv
        obtain ⟨kv2, hkv2, heq⟩ := List.mem_map.mp hkv
        by_cases hs : isSecretKeyName kv2.1 = true
        · rw [if_pos hs] at heq
          rw [← heq]
        · rw [if_neg hs] at heq
          subst heq
          exact absurd hsec hs
  · intro s k1 k2 h1 h2
    simp only [setApiKey, redactSettings]
    rw [if_pos (by simp [JS.strTruthy, h1]), if_pos (by simp [JS.strTruthy, h2])]
  · intro s f
    cases hms : s.mcpServers with
    | none => simp [mapSecretEnvValues, redactSettings, hms]
    | some l =>
      simp only [mapSecretEnvValues, redactSettings, hms, Option.map_some',
        List.map_map]
      have hmap : l.map (redactServerEntry ∘ mapSecretEntry f) =
          l.map redactServerEntry := by
        refine List.map_congr_left ?_
        intro p _
        simp only [Function.comp]
        unfold redactServerEntry mapSecretEntry
        cases he : p.2.env with
        | none => simp [he]
        | some evs =>
          simp only [he, Option.map_some']
          have hevs : redactEnvList (evs.map (fun kv =>
              if isSecretKeyName kv.1 then (kv.1, f kv.1 kv.2) else kv)) =
              redactEnvList evs := by
            unfold redactEnvList
            rw [List.map_map]
            refine List.map_congr_left ?_
            intro kv _
            simp only [Function.comp]
            by_cases hs : isSecretKeyName kv.1 = true
            · simp [hs]
            · simp [hs]
          rw [hevs]
      rw [hmap]
  · intro env s args hload hsec
    rw [executeTool_export_configuration]
    simp only [caseExportConfiguration, withSettings, hload]
    rw [if_neg (by simp [hsec])]
    rfl

/-- Witness for `export_redacts_secrets` at `settingsSec2`. -/
theorem export_redacts_secrets_witness :
    (redactSettings settingsSec2).smartRouting =
      some { enabled := none, openaiApiKey := some "***REDACTED***",
             embeddingModel := none } ∧
    redactSettings (setApiKey settingsSec2 "k1") =
      redactSettings (setApiKey settingsSec2 "k2") ∧
    (executeTool envSec2 "export_configuration" argsNone).result =
      .ok (.settingsVal (redactSettings settingsSec2)) :=
  ⟨export_redacts_secrets.1 settingsSec2 { openaiApiKey := some "sk-123" } rfl rfl,
   export_redacts_secrets.2.2.1 settingsSec2 "k1" "k2" (by decide) (by decide),
   export_redacts_secrets.2.2.2.2 envSec2 settingsSec2 argsNone rfl rfl⟩

end Hub

end MCPHub
